import Mathlib

/-!
Verification of the Othello Arena core (othello-leaderboard repository).

This file gives a shallow embedding, in Lean 4, of the board engine
(src/game-core.js), the turn-scheduling move validation and fallback logic
(src/intelligent-system-loader.js), the time-forfeit rule
(game-ui.js, shipped as src/unnamed/part_004), the upload validation checks
(strategies.js = src/unnamed/part_002, app.js = src/unnamed/part_001), and
proves or refutes the specification claims about them.

Embedding conventions:
* JS cell values 0/1/2/3 (EMPTY/BLACK/WHITE/BLOCKED from constant.js) become
  the inductive type Cell; players 1/2 become Player.
* A board is a list of rows (List (List Cell)), exactly the JS 2-D array.
  The JS module keeps the invariant BOARD_SIZE = board.length (both are set
  together in initializeBoard), so the embedded functions use b.length where
  the JS reads the BOARD_SIZE module variable.
* The JS directional while-loops walk coordinates by a fixed nonzero step
  (dr, dc) with |dr|, |dc| <= 1, so a scan leaves the board after at most
  board-size steps; the embedding makes the loop structural with a fuel
  argument instantiated at board size, which by that bound never truncates
  an in-board scan.
* Wall-clock times (performance.now differences) are modelled as natural
  numbers of milliseconds; the claims only use ordering and addition.
* Math.random based choices (uniform index into a list) are modelled by an
  explicit index argument, matching "validMoves[Math.floor(Math.random() *
  validMoves.length)]" with the index ranging over the list positions.
-/

namespace OthelloArena

/-- Cell states, from GAME_CONSTANTS in constant.js (EMPTY 0, BLACK 1, WHITE 2, BLOCKED 3). -/
inductive Cell : Type
  | empty : Cell
  | black : Cell
  | white : Cell
  | blocked : Cell
deriving DecidableEq, Repr

/-- The two players (GAME_CONSTANTS.BLACK = 1, GAME_CONSTANTS.WHITE = 2). -/
inductive Player : Type
  | black : Player
  | white : Player
deriving DecidableEq, Repr

/-- Opponent of a player, as computed by the repeated JS idiom
player === BLACK ? WHITE : BLACK. -/
def Player.opp : Player → Player
  | .black => .white
  | .white => .black

/-- Disc colour of a player as a cell value. -/
def Player.disc : Player → Cell
  | .black => .black
  | .white => .white

/-- A board: list of rows of cells, the JS 2-D array. -/
abbrev Board := List (List Cell)

/-- MAX_AI_TIME_PER_GAME from constant.js: per-player budget of 10000 ms. -/
def MAX_AI_TIME_PER_GAME : Nat := 10000

/-- Models isWithinBoard from game-core.js:
r >= 0 && r < BOARD_SIZE && c >= 0 && c < BOARD_SIZE. -/
def withinBoard (n : Nat) (r c : Int) : Bool :=
  decide (0 ≤ r) && decide (r < (n : Int)) && decide (0 ≤ c) && decide (c < (n : Int))

/-- Reading board[r][c]; only meaningful under a withinBoard guard,
as in the JS code. -/
def cellAt (b : Board) (r c : Int) : Cell :=
  (b.getD r.toNat []).getD c.toNat Cell.empty

/-- Writing board[r][c] = v; only used under a withinBoard guard in the JS. -/
def setCell (b : Board) (r c : Int) (v : Cell) : Board :=
  b.set r.toNat ((b.getD r.toNat []).set c.toNat v)

/-- The 8 scan directions, in the order they appear in game-core.js. -/
def directions : List (Int × Int) :=
  [(-1, -1), (-1, 0), (-1, 1), (0, -1), (0, 1), (1, -1), (1, 0), (1, 1)]

/-- Models the directional while-loop of isValidMove (game-core.js lines
132-169): walks from (r, c) by (dr, dc); an opponent disc records
foundOpponent and continues; a Blocked cell stops the direction unless
ignoreOcclusion, in which case it records foundBlocked and continues; an
Empty cell stops with failure; the mover's own disc yields
foundOpponent && (!foundBlocked || ignoreOcclusion). Fuel is instantiated
at board size, which bounds the number of in-board steps. -/
def scanDirValid (b : Board) (n : Nat) (pl : Player) (ign : Bool)
    (dr dc : Int) : Bool → Bool → Int → Int → Nat → Bool
  | _, _, _, _, 0 => false
  | fo, fb, r, c, fuel + 1 =>
    if withinBoard n r c then
      match cellAt b r c with
      | .empty => false
      | .blocked =>
        if ign then scanDirValid b n pl ign dr dc fo true (r + dr) (c + dc) fuel
        else false
      | d =>
        if d = pl.disc then fo && (!fb || ign)
        else scanDirValid b n pl ign dr dc true fb (r + dr) (c + dc) fuel
    else false

/-- Models isValidMove from game-core.js (lines 118-174): in-bounds Empty
target, then some direction scan succeeds. -/
def isValidMove (b : Board) (ign : Bool) (pl : Player) (row col : Int) : Bool :=
  if withinBoard b.length row col && decide (cellAt b row col = Cell.empty) then
    directions.any fun d =>
      scanDirValid b b.length pl ign d.1 d.2 false false (row + d.1) (col + d.2) b.length
  else false

/-- Models getValidMoves from game-core.js (lines 182-196): nested row-major
loops over all cells, keeping those where isValidMove holds. -/
def getValidMoves (b : Board) (ign : Bool) (pl : Player) : List (Int × Int) :=
  (List.range b.length).flatMap fun r =>
    (List.range b.length).filterMap fun c =>
      if isValidMove b ign pl (Int.ofNat r) (Int.ofNat c) then some (Int.ofNat r, Int.ofNat c)
      else none

/-- Models the per-direction collection loop of makeMove (game-core.js lines
226-266): returns the list of coordinates that get flipped in this
direction (the toFlip array exactly when the player's disc closes a run
with foundOpponent, toFlip nonempty and !foundBlocked || ignoreOcclusion;
the empty list otherwise). -/
def scanDirFlips (b : Board) (n : Nat) (pl : Player) (ign : Bool)
    (dr dc : Int) : List (Int × Int) → Bool → Bool → Int → Int → Nat → List (Int × Int)
  | _, _, _, _, _, 0 => []
  | toFlip, fo, fb, r, c, fuel + 1 =>
    if withinBoard n r c then
      match cellAt b r c with
      | .empty => []
      | .blocked =>
        if ign then scanDirFlips b n pl ign dr dc toFlip fo true (r + dr) (c + dc) fuel
        else []
      | d =>
        if d = pl.disc then
          if fo && !toFlip.isEmpty && (!fb || ign) then toFlip else []
        else scanDirFlips b n pl ign dr dc (toFlip ++ [(r, c)]) true fb (r + dr) (c + dc) fuel
    else []

/-- Flips the collected coordinates to the mover's colour
(board[fr][fc] = player inside makeMove). -/
def flipAll (pl : Player) : Board → List (Int × Int) → Board
  | b, [] => b
  | b, p :: ps => flipAll pl (setCell b p.1 p.2 pl.disc) ps

/-- One direction of the makeMove loop body (game-core.js lines 226-267):
collect the flips for this direction against the board as mutated so far,
apply them, and add them to the captured count. The JS boolean result
"flipped" of makeMove is equivalent to the final count being nonzero.
Note the JS makeMove checks only bounds and emptiness of the target - it
does NOT run the full isValidMove legality check - and it places the disc
before scanning, so an illegal move on an Empty in-bounds cell still
mutates the board. -/
def makeMoveDirStep (ign : Bool) (pl : Player) (row col : Int) (n : Nat)
    (acc : Board × Nat) (d : Int × Int) : Board × Nat :=
  let fl := scanDirFlips acc.1 n pl ign d.1 d.2 [] false false (row + d.1) (col + d.2) n
  (flipAll pl acc.1 fl, acc.2 + fl.length)

/-- Models makeMove from game-core.js (lines 205-285), as the fold of
makeMoveDirStep over the 8 directions after placing the disc. -/
def makeMove (b : Board) (ign : Bool) (pl : Player) (row col : Int) : Board × Nat :=
  let n := b.length
  if withinBoard n row col && decide (cellAt b row col = Cell.empty) then
    directions.foldl (makeMoveDirStep ign pl row col n) (setCell b row col pl.disc, 0)
  else (b, 0)

/-- Models countDiscs from game-core.js (lines 320-331); first component is
the black count, second the white count. -/
def countDiscs (b : Board) : Nat × Nat :=
  b.foldl
    (fun acc row =>
      row.foldl
        (fun a cell =>
          match cell with
          | .black => (a.1 + 1, a.2)
          | .white => (a.1, a.2 + 1)
          | _ => a)
        acc)
    (0, 0)

/-- Disc count of one player, projecting countDiscs. -/
def countOf (b : Board) : Player → Nat
  | .black => (countDiscs b).1
  | .white => (countDiscs b).2

/-- Models determineNextPlayer from game-core.js (lines 291-313): without
the fewerPiecesContinue rule, strictly alternate; with it, the player with
strictly fewer discs moves next, ties alternate. -/
def determineNextPlayer (b : Board) (fewerPiecesContinue : Bool) (cur : Player) : Player :=
  if !fewerPiecesContinue then cur.opp
  else
    let scores := countDiscs b
    if scores.1 < scores.2 then .black
    else if scores.2 < scores.1 then .white
    else cur.opp

/-- Models the board rewrite inside checkTimeLimit (game-ui.js, shipped as
src/unnamed/part_004, lines 521-533): every cell that is neither BLOCKED
nor already the winning colour becomes the winning colour. -/
def forfeitBoard (b : Board) (winner : Player) : Board :=
  b.map fun row =>
    row.map fun cell =>
      if cell ≠ Cell.blocked ∧ cell ≠ winner.disc then winner.disc else cell

/-- Models checkTimeLimit (same file, lines 509-539): if timeUsed strictly
exceeds MAX_AI_TIME_PER_GAME the game ends at once, the opponent wins, and
the board is rewritten by forfeitBoard; otherwise nothing happens (none). -/
def checkTimeLimit (b : Board) (pl : Player) (timeUsed : Nat) : Option (Board × Player) :=
  if timeUsed > MAX_AI_TIME_PER_GAME then some (forfeitBoard b pl.opp, pl.opp) else none

/-- Exact-membership test used by makeAIMove (intelligent-system-loader.js
line 1843): validMoves.some(v => v.row === move.row && v.col === move.col). -/
def movesContain (l : List (Int × Int)) (m : Int × Int) : Bool :=
  l.any fun v => decide (v.1 = m.1) && decide (v.2 = m.2)

/-- Outcome of the validate-and-apply section of one scheduled AI turn. -/
structure TurnOutcome : Type where
  actualMove : Int × Int
  isFallback : Bool
  timeAfterValidate : Nat
  newBoard : Board
deriving DecidableEq, Repr

/-- Models the post-strategy section of makeAIMove
(intelligent-system-loader.js lines 1831-1876): after the move time has
been accumulated into the player's usage, checkTimeLimit runs (game over
yields none here); then the returned move is validated by exact membership
in the precomputed validMoves; a null/absent/non-member move is replaced
by validMoves[Math.floor(Math.random()*validMoves.length)] (index modelled
by randIdx; an out-of-range pick is the !actualMove branch that delegates
to useFallbackMove, modelled none); finally exactly one makeMove call
applies the chosen move. No time penalty is added and the time limit is
not re-checked on this path: timeAfterValidate is the unchanged timeUsed. -/
def pickActualMove (validMoves : List (Int × Int)) (returned : Option (Int × Int))
    (randIdx : Nat) : Option ((Int × Int) × Bool) :=
  match returned with
  | some mv =>
    if movesContain validMoves mv then some (mv, false)
    else (validMoves[randIdx]?).map fun m => (m, true)
  | none => (validMoves[randIdx]?).map fun m => (m, true)

/-- Continuation of the model of makeAIMove: the time-limit gate, the
pickActualMove validation, and the single makeMove application. -/
def makeAIMoveStep (b : Board) (ign : Bool) (pl : Player) (validMoves : List (Int × Int))
    (returned : Option (Int × Int)) (randIdx : Nat) (timeUsed : Nat) : Option TurnOutcome :=
  if timeUsed > MAX_AI_TIME_PER_GAME then none
  else
    (pickActualMove validMoves returned randIdx).map fun p =>
      ⟨p.1, p.2, timeUsed, (makeMove b ign pl p.1.1 p.1.2).1⟩

/-- Outcome of the non-pass branch of useFallbackMove. -/
structure FallbackOutcome : Type where
  move : Int × Int
  timeAfterPenalty : Nat
  newBoard : Board
deriving DecidableEq, Repr

/-- Models useFallbackMove (intelligent-system-loader.js lines 1931-2032),
the route taken when the strategy function is missing or the turn threw:
with no legal moves the pass/game-end path runs (modelled none, no
penalty); otherwise a fixed 100 ms penalty is added to the player's usage,
checkTimeLimit re-runs (a violation ends the game: none), and then a
random legal move is chosen and applied by one makeMove call. -/
def useFallbackMoveStep (b : Board) (ign : Bool) (pl : Player) (validMoves : List (Int × Int))
    (randIdx : Nat) (timeUsed : Nat) : Option FallbackOutcome :=
  if validMoves.isEmpty then none
  else
    let t := timeUsed + 100
    if t > MAX_AI_TIME_PER_GAME then none
    else (validMoves[randIdx]?).map fun mv => ⟨mv, t, (makeMove b ign pl mv.1 mv.2).1⟩

/-- Models the last-resort strategy substituted by analyzeStageWithSystem
(intelligent-system-loader.js lines 126-133) when the analysis function
did not return an invocable value: a function that returns null on an
empty legal-move list and otherwise a uniformly random member
validMoves[Math.floor(Math.random()*validMoves.length)]. -/
def fallbackRandomStrategy (validMoves : List (Int × Int)) (randIdx : Nat) : Option (Int × Int) :=
  if validMoves.isEmpty then none else validMoves[randIdx]?

/-- Models the strategy-handle substitution in analyzeStageWithSystem
(lines 94-133): if running analyzeStage produced an invocable result it is
used as-is, otherwise fallbackRandomStrategy is substituted, so the caller
always receives a usable strategy function. -/
def analyzeStageStrategy
    (result : Option (Board → Player → List (Int × Int) → Nat → Option (Int × Int))) :
    Board → Player → List (Int × Int) → Nat → Option (Int × Int) :=
  match result with
  | some f => f
  | none => fun _ _ vm idx => fallbackRandomStrategy vm idx

/-- Character-list test: the second list starts with the first pattern. -/
def chunkStartsWith : List Char → List Char → Bool
  | _, [] => true
  | [], _ :: _ => false
  | a :: s, x :: p => a == x && chunkStartsWith s p

/-- Character-list substring test, the semantics of JS String.includes. -/
def chunkHasSub (p : List Char) : List Char → Bool
  | [] => p.isEmpty
  | a :: t => chunkStartsWith (a :: t) p || chunkHasSub p t

/-- JS code.includes(pat) on whole strings. -/
def includesStr (s pat : String) : Bool :=
  chunkHasSub pat.toList s.toList

/-- Models the per-file validation of importStrategiesFromFiles
(strategies.js, shipped as src/unnamed/part_002, lines 340-370): an empty
file is rejected; the text must contain the substring studentStrategy or
the substring function-paren; any text containing the substring
analyzeStage is rejected. Error message texts are abbreviated. -/
def importStrategyCheck (code : String) : Except String Unit :=
  if code.isEmpty then Except.error "empty file or invalid name"
  else if !(includesStr code "studentStrategy" || includesStr code "function(") then
    Except.error "the file must implement a studentStrategy function"
  else if includesStr code "analyzeStage" then
    Except.error "do not upload intelligent system here"
  else Except.ok ()

/-- Models the validation applied to intelligent-system uploads, identical
in app.js (src/unnamed/part_001, lines 457-463) and analyzeStageWithSystem
(intelligent-system-loader.js lines 37-45): empty code is rejected; the
text must contain the substring function-analyzeStage or the substring
analyzeStage-equals. No other textual check is applied; in particular the
code is never tested for the substring studentStrategy. -/
def analysisUploadCheck (code : String) : Except String Unit :=
  if code.isEmpty then Except.error "no system code provided"
  else if !(includesStr code "function analyzeStage" || includesStr code "analyzeStage =") then
    Except.error "the intelligent system must implement an analyzeStage function"
  else Except.ok ()

/-- Models createInitialBoard phase 1 (game-core.js lines 44-46): blocked
cells are written wherever the coordinates are within the board. -/
def placeBlocked (n : Nat) : Board → List (Int × Int) → Board
  | b, [] => b
  | b, p :: ps =>
    placeBlocked n (if withinBoard n p.1 p.2 then setCell b p.1 p.2 Cell.blocked else b) ps

/-- Models createInitialBoard phases 2 and 3 (game-core.js lines 49-58):
a disc is written only if the coordinates are within the board and the
cell is still Empty. -/
def placeIfEmpty (n : Nat) (disc : Cell) : Board → List (Int × Int) → Board
  | b, [] => b
  | b, p :: ps =>
    placeIfEmpty n disc
      (if withinBoard n p.1 p.2 && decide (cellAt b p.1 p.2 = Cell.empty) then
        setCell b p.1 p.2 disc
      else b) ps

/-- Stage configuration fields used by createInitialBoard (stages.js). -/
structure StageConfig : Type where
  boardSize : Nat
  initialBlocked : List (Int × Int)
  initialPlayer1 : List (Int × Int)
  initialPlayer2 : List (Int × Int)
deriving DecidableEq, Repr

/-- Models createInitialBoard (game-core.js lines 34-69): an all-Empty
square board, then blocked cells, then Black initial pieces onto still
Empty cells, then White initial pieces onto still Empty cells. -/
def createInitialBoard (cfg : StageConfig) : Board :=
  let n := cfg.boardSize
  let b0 : Board := List.replicate n (List.replicate n Cell.empty)
  placeIfEmpty n Cell.white
    (placeIfEmpty n Cell.black (placeBlocked n b0 cfg.initialBlocked) cfg.initialPlayer1)
    cfg.initialPlayer2

/-- Row-major order on coordinates: earlier row, or same row and earlier
column. -/
def rowMajorLt (a b : Int × Int) : Prop :=
  a.1 < b.1 ∨ (a.1 = b.1 ∧ a.2 < b.2)

/-- Squareness invariant maintained by the JS module: every row has the
board length (boards are built by createInitialBoard). -/
def squareBoard (b : Board) : Bool :=
  b.all fun row => row.length == b.length

/-- A 4x4 all-Empty board, used as a concrete test input. -/
def emptyBoard4 : Board := List.replicate 4 (List.replicate 4 Cell.empty)

/-- A 4x4 board with the standard centre opening, used as a concrete test
input; Black to move has legal moves (0,1), (1,0), (2,3), (3,2). -/
def centerBoard4 : Board :=
  [[Cell.empty, Cell.empty, Cell.empty, Cell.empty],
   [Cell.empty, Cell.white, Cell.black, Cell.empty],
   [Cell.empty, Cell.black, Cell.white, Cell.empty],
   [Cell.empty, Cell.empty, Cell.empty, Cell.empty]]

/-- Dimension invariant of boards built from a stage: n rows of length n. -/
def boardDims (b : Board) (n : Nat) : Prop :=
  b.length = n ∧ ∀ i : Nat, i < n → (b.getD i []).length = n

/-- An analysis upload that also contains the player entry-point name. -/
def analysisDualCode : String :=
  "function analyzeStage and also function studentStrategy"

/-- A strategy upload containing neither entry-point name, only an
anonymous function header. -/
def strategyAnonCode : String :=
  "return function( board ) with no named entry point"

/-- The row-major enumeration of all coordinates of an n-sized board. -/
def rowMajorCoords (n : Nat) : List (Int × Int) :=
  (List.range n).flatMap fun r => (List.range n).map fun c => (Int.ofNat r, Int.ofNat c)

/-- The standard 8x8 stage (stages.js, stage 1). -/
def stdStage8 : StageConfig := ⟨8, [], [(3, 4), (4, 3)], [(3, 3), (4, 4)]⟩

/-- Row 0 of the occlusion-scenario board family: Empty at 0, a White run
at columns 1..k, Blocked at k+1, a second White run at k+2..m, a Black
disc at m+1, Empty beyond. -/
def occRowCell (k m c : Nat) : Cell :=
  if c = 0 then Cell.empty
  else if c ≤ k then Cell.white
  else if c = k + 1 then Cell.blocked
  else if c ≤ m then Cell.white
  else if c = m + 1 then Cell.black
  else Cell.empty

/-- The occlusion-scenario board family: the configured row 0 on an
otherwise Empty n x n board. -/
def occBoard (n k m : Nat) : Board :=
  (List.range n).map fun r =>
    (List.range n).map fun c => if r = 0 then occRowCell k m c else Cell.empty

/-- The flip positions of the scenario: the first White run. -/
def occRun1 (k : Nat) : List (Int × Int) :=
  (List.range k).map fun i : Nat => ((0 : Int), 1 + (i : Int))

/-- The flip positions of the scenario: the White run beyond the Blocked
cell. -/
def occRun2 (k m : Nat) : List (Int × Int) :=
  (List.range (m - k - 1)).map fun i : Nat => ((0 : Int), (1 : Int) + (k : Int) + 1 + (i : Int))

/-- The board after the scenario disc is placed at (0,0). -/
def occPlaced (n k m : Nat) : Board :=
  setCell (occBoard n k m) 0 0 Player.black.disc

/-- The scenario board after makeMove: disc placed and both runs flipped. -/
def occFlipped (n k m : Nat) : Board :=
  flipAll Player.black (occPlaced n k m) (occRun1 k ++ occRun2 k m)

/-! ## Generic list and board access lemmas -/

theorem getD_set_self {α : Type _} (l : List α) (i : Nat) (v d : α) (h : i < l.length) :
    (l.set i v).getD i d = v := by
  simp [List.getD_eq_getElem?_getD, List.getElem?_set, h]

theorem getD_set_ne {α : Type _} (l : List α) (i j : Nat) (v d : α) (h : i ≠ j) :
    (l.set i v).getD j d = l.getD j d := by
  simp [List.getD_eq_getElem?_getD, List.getElem?_set, h]

theorem getD_set_cases {α : Type _} (l : List α) (i j : Nat) (v d : α) :
    (l.set i v).getD j d = l.getD j d ∨ (i = j ∧ (l.set i v).getD j d = v) := by
  rcases eq_or_ne i j with h | h
  · by_cases hl : i < l.length
    · right
      exact ⟨h, h ▸ getD_set_self l i v d hl⟩
    · left
      rw [List.set_eq_of_length_le (Nat.le_of_not_lt hl)]
  · left
    exact getD_set_ne l i j v d h

theorem getD_map_range {β : Type _} (f : Nat → β) (n i : Nat) (d : β) (h : i < n) :
    ((List.range n).map f).getD i d = f i := by
  simp [List.getD_eq_getElem?_getD, List.getElem?_map, List.getElem?_range h]

theorem cellAt_setCell_self (b : Board) (r c : Int) (v : Cell)
    (hr : r.toNat < b.length) (hc : c.toNat < (b.getD r.toNat []).length) :
    cellAt (setCell b r c v) r c = v := by
  unfold cellAt setCell
  rw [getD_set_self _ _ _ _ hr, getD_set_self _ _ _ _ hc]

theorem cellAt_setCell_ne (b : Board) (x y r c : Int) (v : Cell)
    (h : x.toNat ≠ r.toNat ∨ y.toNat ≠ c.toNat) :
    cellAt (setCell b x y v) r c = cellAt b r c := by
  unfold cellAt setCell
  rcases h with h | h
  · rw [getD_set_ne _ _ _ _ _ h]
  · rcases eq_or_ne x.toNat r.toNat with hx | hx
    · rcases getD_set_cases b x.toNat r.toNat ((b.getD x.toNat []).set y.toNat v) [] with h2 | h2
      · rw [h2]
      · rw [h2.2, getD_set_ne _ _ _ _ _ h, hx]
    · rw [getD_set_ne _ _ _ _ _ hx]

theorem cellAt_setCell_cases (b : Board) (x y r c : Int) (v : Cell) :
    cellAt (setCell b x y v) r c = cellAt b r c ∨ cellAt (setCell b x y v) r c = v := by
  unfold cellAt setCell
  rcases getD_set_cases b x.toNat r.toNat ((b.getD x.toNat []).set y.toNat v) [] with h | h
  · rw [h]
    left
    rfl
  · rw [h.2]
    rcases getD_set_cases (b.getD x.toNat []) y.toNat c.toNat v Cell.empty with h2 | h2
    · rw [h2, h.1]
      left
      rfl
    · right
      exact h2.2

theorem length_setCell (b : Board) (x y : Int) (v : Cell) :
    (setCell b x y v).length = b.length := by
  unfold setCell
  exact List.length_set b x.toNat _

theorem rowLen_setCell (b : Board) (x y : Int) (v : Cell) (i : Nat) :
    ((setCell b x y v).getD i []).length = (b.getD i []).length := by
  unfold setCell
  rcases getD_set_cases b x.toNat i ((b.getD x.toNat []).set y.toNat v) [] with h | h
  · rw [h]
  · rw [h.2, List.length_set, h.1]

/-! ## flipAll lemmas -/

theorem cellAt_flipAll_cases (pl : Player) (ps : List (Int × Int)) (b : Board) (r c : Int) :
    cellAt (flipAll pl b ps) r c = cellAt b r c ∨ cellAt (flipAll pl b ps) r c = pl.disc := by
  induction ps generalizing b with
  | nil => left; rfl
  | cons p ps ih =>
    rw [flipAll]
    rcases ih (setCell b p.1 p.2 pl.disc) with h | h
    · rw [h]
      exact cellAt_setCell_cases b p.1 p.2 r c pl.disc
    · right
      exact h

theorem cellAt_flipAll_ne (pl : Player) (ps : List (Int × Int)) (b : Board) (r c : Int)
    (h : ∀ p ∈ ps, p.1.toNat ≠ r.toNat ∨ p.2.toNat ≠ c.toNat) :
    cellAt (flipAll pl b ps) r c = cellAt b r c := by
  induction ps generalizing b with
  | nil => rfl
  | cons p ps ih =>
    rw [flipAll]
    rw [ih (setCell b p.1 p.2 pl.disc) fun q hq => h q (List.mem_cons_of_mem p hq)]
    exact cellAt_setCell_ne b p.1 p.2 r c pl.disc (h p (List.mem_cons_self p ps))

theorem length_flipAll (pl : Player) (ps : List (Int × Int)) (b : Board) :
    (flipAll pl b ps).length = b.length := by
  induction ps generalizing b with
  | nil => rfl
  | cons p ps ih => rw [flipAll, ih, length_setCell]

theorem rowLen_flipAll (pl : Player) (ps : List (Int × Int)) (b : Board) (i : Nat) :
    ((flipAll pl b ps).getD i []).length = (b.getD i []).length := by
  induction ps generalizing b with
  | nil => rfl
  | cons p ps ih => rw [flipAll, ih, rowLen_setCell]

theorem cellAt_flipAll_of_mem (pl : Player) (ps : List (Int × Int)) (b : Board) (r c : Int)
    (hmem : (r, c) ∈ ps) (hr : r.toNat < b.length)
    (hc : c.toNat < (b.getD r.toNat []).length) :
    cellAt (flipAll pl b ps) r c = pl.disc := by
  induction ps generalizing b with
  | nil => cases hmem
  | cons p ps ih =>
    rw [flipAll]
    rcases List.mem_cons.mp hmem with h | h
    · rcases cellAt_flipAll_cases pl ps (setCell b p.1 p.2 pl.disc) r c with h2 | h2
      · rw [h2, ← h]
        exact cellAt_setCell_self b r c pl.disc hr hc
      · exact h2
    · exact ih (setCell b p.1 p.2 pl.disc) h
        (by rw [length_setCell]; exact hr)
        (by rw [rowLen_setCell]; exact hc)

/-! ## makeMove structure lemmas -/

theorem cellAt_makeMoveFold (ign : Bool) (pl : Player) (row col : Int) (n : Nat)
    (r c : Int) :
    ∀ (ds : List (Int × Int)) (acc : Board × Nat), cellAt acc.1 r c = pl.disc →
      cellAt (ds.foldl (makeMoveDirStep ign pl row col n) acc).1 r c = pl.disc := by
  intro ds
  induction ds with
  | nil => intro acc h; exact h
  | cons d ds ih =>
    intro acc h
    rw [List.foldl_cons]
    apply ih
    rcases cellAt_flipAll_cases pl
        (scanDirFlips acc.1 n pl ign d.1 d.2 [] false false (row + d.1) (col + d.2) n)
        acc.1 r c with h2 | h2
    · exact h2.trans h
    · exact h2

theorem withinBoard_iff (n : Nat) (r c : Int) :
    withinBoard n r c = true ↔ 0 ≤ r ∧ r < (n : Int) ∧ 0 ≤ c ∧ c < (n : Int) := by
  simp [withinBoard, and_assoc]

theorem squareBoard_row (b : Board) (h : squareBoard b = true) (i : Nat) (hi : i < b.length) :
    (b.getD i []).length = b.length := by
  rw [squareBoard, List.all_eq_true] at h
  have hmem : b.getD i [] ∈ b := by
    rw [List.getD_eq_getElem?_getD, List.getElem?_eq_getElem hi]
    exact List.getElem_mem hi
  simpa using h _ hmem

/-- C1, counterexample. The claim says an illegal move is a no-op, but on
the all-Empty 4x4 board the move (0,0) for Black is illegal (isValidMove
is false) while makeMove still writes the disc: the returned board differs
from the input although zero discs were flipped. -/
theorem makeMove_illegal_changes_board_cex :
    isValidMove emptyBoard4 false Player.black 0 0 = false ∧
    (makeMove emptyBoard4 false Player.black 0 0).1 ≠ emptyBoard4 ∧
    (makeMove emptyBoard4 false Player.black 0 0).2 = 0 := by
  refine ⟨by decide, by decide, by decide⟩

/-- C1, amended claim: makeMove is a no-op (returning the unchanged board
and zero flips) exactly when the target cell is out of bounds or not
Empty; whenever the target cell is an in-bounds Empty cell - legal move or
not - the mover's disc is placed there, so the board does change. -/
theorem makeMove_amended_spec (b : Board) (ign : Bool) (pl : Player) (row col : Int)
    (hsq : squareBoard b = true) :
    (¬(withinBoard b.length row col = true ∧ cellAt b row col = Cell.empty) →
      makeMove b ign pl row col = (b, 0)) ∧
    (withinBoard b.length row col = true → cellAt b row col = Cell.empty →
      cellAt (makeMove b ign pl row col).1 row col = pl.disc ∧
      (makeMove b ign pl row col).1 ≠ b) := by
  constructor
  · intro h
    have hcond : (withinBoard b.length row col && decide (cellAt b row col = Cell.empty)) = false := by
      rcases not_and_or.mp h with h1 | h1
      · simp [Bool.eq_false_iff.mpr h1]
      · simp [h1]
    simp [makeMove, hcond]
  · intro hw he
    have hbounds := (withinBoard_iff b.length row col).mp hw
    have hrow : row.toNat < b.length := by omega
    have hcol : col.toNat < (b.getD row.toNat []).length := by
      rw [squareBoard_row b hsq row.toNat hrow]
      omega
    have hcond : (withinBoard b.length row col && decide (cellAt b row col = Cell.empty)) = true := by
      simp [hw, he]
    have hcell : cellAt (makeMove b ign pl row col).1 row col = pl.disc := by
      simp only [makeMove, hcond, if_true]
      exact cellAt_makeMoveFold ign pl row col b.length row col directions
        (setCell b row col pl.disc, 0)
        (cellAt_setCell_self b row col pl.disc hrow hcol)
    refine ⟨hcell, fun hEq => ?_⟩
    rw [hEq, he] at hcell
    cases pl <;> simp [Player.disc] at hcell

/-- C1 witness: the amended theorem applied to concrete inputs - an
out-of-bounds move on the 4x4 board is a no-op, and the illegal move (0,0)
on the Empty board places a Black disc. -/
theorem makeMove_amended_spec_witness :
    makeMove emptyBoard4 false Player.black 5 5 = (emptyBoard4, 0) ∧
    cellAt (makeMove emptyBoard4 false Player.black 0 0).1 0 0 = Player.disc Player.black := by
  constructor
  · exact (makeMove_amended_spec emptyBoard4 false Player.black 5 5 (by decide)).1 (by decide)
  · exact ((makeMove_amended_spec emptyBoard4 false Player.black 0 0 (by decide)).2
      (by decide) (by decide)).1

/-! ## C3: time forfeiture -/

theorem getD_map_of_lt {α β : Type _} (f : α → β) (l : List α) (i : Nat) (d : β) (d' : α)
    (h : i < l.length) : (l.map f).getD i d = f (l.getD i d') := by
  rw [List.getD_eq_getElem?_getD, List.getD_eq_getElem?_getD, List.getElem?_map,
    List.getElem?_eq_getElem h]
  simp

/-- C3. If a player's cumulative time strictly exceeds the 10000 ms budget
when checkTimeLimit runs, the game ends at once with the opponent as the
winner, and every in-bounds cell that is not Blocked - the offending
player's discs and the Empty cells included - holds the opponent's colour
in the resulting board, while Blocked cells stay Blocked. -/
theorem checkTimeLimit_forfeit_spec (b : Board) (pl : Player) (t : Nat) (r c : Nat)
    (ht : t > MAX_AI_TIME_PER_GAME) (hr : r < b.length) (hc : c < (b.getD r []).length) :
    checkTimeLimit b pl t = some (forfeitBoard b pl.opp, pl.opp) ∧
    cellAt (forfeitBoard b pl.opp) (r : Int) (c : Int) =
      (if cellAt b (r : Int) (c : Int) = Cell.blocked then Cell.blocked
       else (pl.opp).disc) := by
  refine ⟨by simp [checkTimeLimit, ht], ?_⟩
  unfold forfeitBoard cellAt
  have hrn : ((r : Int)).toNat = r := by omega
  have hcn : ((c : Int)).toNat = c := by omega
  rw [hrn, hcn]
  rw [getD_map_of_lt _ b r [] [] hr]
  rw [getD_map_of_lt _ (b.getD r []) c Cell.empty Cell.empty hc]
  rcases h : (b.getD r []).getD c Cell.empty <;> cases pl <;> simp [Player.opp, Player.disc]

/-- C3 witness: the forfeiture theorem applied to the concrete 4x4 centre
board at 10001 ms for Black: White wins and cell (1,1), a White disc
already, and cell (0,0), an Empty cell, are both White afterwards. -/
theorem checkTimeLimit_forfeit_spec_witness :
    checkTimeLimit centerBoard4 Player.black 10001 =
      some (forfeitBoard centerBoard4 Player.white, Player.white) ∧
    cellAt (forfeitBoard centerBoard4 Player.white) 0 0 = Cell.white := by
  constructor
  · have h := (checkTimeLimit_forfeit_spec centerBoard4 Player.black 10001 0 0
      (by decide) (by decide) (by decide)).1
    exact h
  · have h := (checkTimeLimit_forfeit_spec centerBoard4 Player.black 10001 0 0
      (by decide) (by decide) (by decide)).2
    exact h.trans (by decide)

/-! ## C5: next-player rule -/

/-- C5. determineNextPlayer strictly alternates when the stage rule
fewerPiecesContinue is off; when it is on, the player with strictly fewer
discs moves next (so a mover whose resulting count is strictly below the
opponent's moves again), and equal counts alternate normally. -/
theorem determineNextPlayer_spec (b : Board) (fpc : Bool) (cur : Player) :
    (fpc = false → determineNextPlayer b fpc cur = cur.opp) ∧
    (fpc = true →
      ((countDiscs b).1 < (countDiscs b).2 → determineNextPlayer b fpc cur = Player.black) ∧
      ((countDiscs b).2 < (countDiscs b).1 → determineNextPlayer b fpc cur = Player.white) ∧
      ((countDiscs b).1 = (countDiscs b).2 → determineNextPlayer b fpc cur = cur.opp) ∧
      (countOf b cur < countOf b cur.opp → determineNextPlayer b fpc cur = cur)) := by
  constructor
  · intro h
    subst h
    rfl
  · intro h
    subst h
    refine ⟨fun h1 => ?_, fun h1 => ?_, fun h1 => ?_, fun h1 => ?_⟩
    · simp [determineNextPlayer, h1]
    · simp [determineNextPlayer, h1, Nat.lt_asymm h1]
    · simp [determineNextPlayer, h1, lt_irrefl]
    · cases cur <;> simp [countOf, Player.opp] at h1 <;>
        simp [determineNextPlayer, h1, Nat.lt_asymm h1]

/-- C5 witness: the next-player theorem applied to concrete boards - with
the rule off White follows Black; with the rule on, on a board where Black
holds fewer discs, Black (the mover) moves again. -/
theorem determineNextPlayer_spec_witness :
    determineNextPlayer centerBoard4 false Player.black = Player.white ∧
    determineNextPlayer [[Cell.black, Cell.white], [Cell.white, Cell.empty]] true
      Player.black = Player.black := by
  constructor
  · exact (determineNextPlayer_spec centerBoard4 false Player.black).1 rfl
  · exact ((determineNextPlayer_spec [[Cell.black, Cell.white], [Cell.white, Cell.empty]]
      true Player.black).2 rfl).2.2.2 (by decide)

/-! ## C10: initial-board construction -/

theorem boardDims_setCell (b : Board) (n : Nat) (x y : Int) (v : Cell) (h : boardDims b n) :
    boardDims (setCell b x y v) n :=
  ⟨by rw [length_setCell]; exact h.1, fun i hi => by rw [rowLen_setCell]; exact h.2 i hi⟩

theorem ne_toNat_of_ne_within (n : Nat) (p q : Int × Int)
    (hp : withinBoard n p.1 p.2 = true) (hq : withinBoard n q.1 q.2 = true) (hne : p ≠ q) :
    p.1.toNat ≠ q.1.toNat ∨ p.2.toNat ≠ q.2.toNat := by
  rw [withinBoard_iff] at hp hq
  by_contra hcon
  push_neg at hcon
  apply hne
  have h1 : p.1 = q.1 := by omega
  have h2 : p.2 = q.2 := by omega
  exact Prod.ext h1 h2

theorem cellAt_setCell_self_dims (b : Board) (n : Nat) (r c : Int) (v : Cell)
    (hd : boardDims b n) (hw : withinBoard n r c = true) :
    cellAt (setCell b r c v) r c = v := by
  obtain ⟨h1, h2, h3, h4⟩ := (withinBoard_iff n r c).mp hw
  have hr : r.toNat < n := by omega
  have hc : c.toNat < n := by omega
  apply cellAt_setCell_self b r c v (by rw [hd.1]; exact hr)
  rw [hd.2 r.toNat hr]
  exact hc

theorem cellAt_placeBlocked (n : Nat) (r c : Int) (hw : withinBoard n r c = true) :
    ∀ (ps : List (Int × Int)) (b : Board), boardDims b n →
      cellAt (placeBlocked n b ps) r c =
        (if (r, c) ∈ ps then Cell.blocked else cellAt b r c) := by
  intro ps
  induction ps with
  | nil => intro b hd; simp [placeBlocked]
  | cons p ps ih =>
    intro b hd
    rw [placeBlocked]
    by_cases hp : p = (r, c)
    · subst hp
      rw [if_pos hw, ih _ (boardDims_setCell b n r c Cell.blocked hd)]
      have hself : cellAt (setCell b r c Cell.blocked) r c = Cell.blocked :=
        cellAt_setCell_self_dims b n r c Cell.blocked hd hw
      by_cases hmem : (r, c) ∈ ps <;> simp [hmem, hself]
    · have hmem : ((r, c) ∈ p :: ps) ↔ ((r, c) ∈ ps) := by
        simp [List.mem_cons, show ¬((r, c) = p) from fun h => hp h.symm]
      by_cases hpw : withinBoard n p.1 p.2 = true
      · rw [if_pos hpw, ih _ (boardDims_setCell b n p.1 p.2 Cell.blocked hd)]
        rw [cellAt_setCell_ne b p.1 p.2 r c Cell.blocked (ne_toNat_of_ne_within n p (r, c) hpw hw hp)]
        simp only [hmem]
      · rw [if_neg hpw, ih b hd]
        simp only [hmem]

theorem boardDims_placeBlocked (n : Nat) :
    ∀ (ps : List (Int × Int)) (b : Board), boardDims b n →
      boardDims (placeBlocked n b ps) n := by
  intro ps
  induction ps with
  | nil => intro b hd; exact hd
  | cons p ps ih =>
    intro b hd
    rw [placeBlocked]
    by_cases hpw : withinBoard n p.1 p.2 = true
    · rw [if_pos hpw]
      exact ih _ (boardDims_setCell b n p.1 p.2 Cell.blocked hd)
    · rw [if_neg hpw]
      exact ih b hd

theorem cellAt_placeIfEmpty (n : Nat) (disc : Cell) (hdisc : disc ≠ Cell.empty)
    (r c : Int) (hw : withinBoard n r c = true) :
    ∀ (ps : List (Int × Int)) (b : Board), boardDims b n →
      cellAt (placeIfEmpty n disc b ps) r c =
        (if cellAt b r c = Cell.empty ∧ (r, c) ∈ ps then disc else cellAt b r c) := by
  intro ps
  induction ps with
  | nil => intro b hd; simp [placeIfEmpty]
  | cons p ps ih =>
    intro b hd
    rw [placeIfEmpty]
    by_cases hp : p = (r, c)
    · subst hp
      by_cases hcell : cellAt b r c = Cell.empty
      · rw [if_pos (by simp [hw, hcell])]
        rw [ih _ (boardDims_setCell b n r c disc hd)]
        have hself : cellAt (setCell b r c disc) r c = disc :=
          cellAt_setCell_self_dims b n r c disc hd hw
        simp [hself, hdisc, hcell, List.mem_cons]
      · rw [if_neg (by simp [hcell]), ih b hd]
        simp [hcell]
    · have hmem : ((r, c) ∈ p :: ps) ↔ ((r, c) ∈ ps) := by
        simp [List.mem_cons, show ¬((r, c) = p) from fun h => hp h.symm]
      by_cases hg : (withinBoard n p.1 p.2 && decide (cellAt b p.1 p.2 = Cell.empty)) = true
      · have hand : withinBoard n p.1 p.2 = true ∧
            decide (cellAt b p.1 p.2 = Cell.empty) = true := by simpa using hg
        rw [if_pos hg, ih _ (boardDims_setCell b n p.1 p.2 disc hd)]
        rw [cellAt_setCell_ne b p.1 p.2 r c disc (ne_toNat_of_ne_within n p (r, c) hand.1 hw hp)]
        simp only [hmem]
      · rw [if_neg hg, ih b hd]
        simp only [hmem]

theorem boardDims_placeIfEmpty (n : Nat) (disc : Cell) :
    ∀ (ps : List (Int × Int)) (b : Board), boardDims b n →
      boardDims (placeIfEmpty n disc b ps) n := by
  intro ps
  induction ps with
  | nil => intro b hd; exact hd
  | cons p ps ih =>
    intro b hd
    rw [placeIfEmpty]
    by_cases hg : (withinBoard n p.1 p.2 && decide (cellAt b p.1 p.2 = Cell.empty)) = true
    · rw [if_pos hg]
      exact ih _ (boardDims_setCell b n p.1 p.2 disc hd)
    · rw [if_neg hg]
      exact ih b hd

theorem boardDims_emptyInit (n : Nat) :
    boardDims (List.replicate n (List.replicate n Cell.empty)) n := by
  refine ⟨List.length_replicate n _, fun i hi => ?_⟩
  rw [List.getD_eq_getElem?_getD, List.getElem?_replicate, if_pos hi]
  simp

theorem getD_replicate_cases {α : Type _} (n i : Nat) (a d : α) :
    (List.replicate n a).getD i d = a ∨ (List.replicate n a).getD i d = d := by
  rw [List.getD_eq_getElem?_getD, List.getElem?_replicate]
  by_cases h : i < n
  · rw [if_pos h]
    left
    rfl
  · rw [if_neg h]
    right
    rfl

theorem cellAt_emptyInit (n : Nat) (r c : Int) :
    cellAt (List.replicate n (List.replicate n Cell.empty)) r c = Cell.empty := by
  unfold cellAt
  rcases getD_replicate_cases n r.toNat (List.replicate n Cell.empty) ([] : List Cell) with h | h <;>
    rw [h]
  · rcases getD_replicate_cases n c.toNat Cell.empty Cell.empty with h2 | h2 <;> rw [h2]
  · rfl

/-- C10. createInitialBoard applies placements in a fixed precedence:
Blocked cells first, then Black pieces only onto still-Empty cells, then
White pieces only onto still-Empty cells; any out-of-bounds placement is
silently ignored (the board keeps its declared size and only listed
in-bounds coordinates are written). Hence a coordinate listed both as
blocked and as an initial piece ends up Blocked, and one listed for both
players ends up Black. -/
theorem createInitialBoard_precedence_spec (cfg : StageConfig) (r c : Int)
    (hw : withinBoard cfg.boardSize r c = true) :
    cellAt (createInitialBoard cfg) r c =
      (if (r, c) ∈ cfg.initialBlocked then Cell.blocked
       else if (r, c) ∈ cfg.initialPlayer1 then Cell.black
       else if (r, c) ∈ cfg.initialPlayer2 then Cell.white
       else Cell.empty) ∧
    (createInitialBoard cfg).length = cfg.boardSize := by
  have hd0 := boardDims_emptyInit cfg.boardSize
  have hd1 := boardDims_placeBlocked cfg.boardSize cfg.initialBlocked _ hd0
  have hd2 := boardDims_placeIfEmpty cfg.boardSize Cell.black cfg.initialPlayer1 _ hd1
  have hd3 := boardDims_placeIfEmpty cfg.boardSize Cell.white cfg.initialPlayer2 _ hd2
  constructor
  · have h1 := cellAt_placeBlocked cfg.boardSize r c hw cfg.initialBlocked _ hd0
    have h2 := cellAt_placeIfEmpty cfg.boardSize Cell.black (by simp) r c hw
      cfg.initialPlayer1 _ hd1
    have h3 := cellAt_placeIfEmpty cfg.boardSize Cell.white (by simp) r c hw
      cfg.initialPlayer2 _ hd2
    show cellAt (placeIfEmpty cfg.boardSize Cell.white
      (placeIfEmpty cfg.boardSize Cell.black
        (placeBlocked cfg.boardSize
          (List.replicate cfg.boardSize (List.replicate cfg.boardSize Cell.empty))
          cfg.initialBlocked) cfg.initialPlayer1) cfg.initialPlayer2) r c = _
    rw [h3, h2, h1, cellAt_emptyInit]
    by_cases hb : (r, c) ∈ cfg.initialBlocked <;>
      by_cases hp1 : (r, c) ∈ cfg.initialPlayer1 <;>
      by_cases hp2 : (r, c) ∈ cfg.initialPlayer2 <;>
      simp [hb, hp1, hp2]
  · exact hd3.1

/-- C10 witness: the precedence theorem on a concrete 4x4 stage where
(1,2) is listed both as blocked and as a Black piece (it ends up Blocked),
(2,2) is listed for both players (it ends up Black), and an out-of-bounds
placement (9,9) is ignored while the board keeps size 4. -/
theorem createInitialBoard_precedence_spec_witness :
    cellAt (createInitialBoard ⟨4, [(1, 2)], [(1, 2), (2, 2)], [(2, 2), (9, 9)]⟩) 1 2 =
      Cell.blocked ∧
    cellAt (createInitialBoard ⟨4, [(1, 2)], [(1, 2), (2, 2)], [(2, 2), (9, 9)]⟩) 2 2 =
      Cell.black ∧
    (createInitialBoard ⟨4, [(1, 2)], [(1, 2), (2, 2)], [(2, 2), (9, 9)]⟩).length = 4 := by
  refine ⟨?_, ?_, ?_⟩
  · exact ((createInitialBoard_precedence_spec ⟨4, [(1, 2)], [(1, 2), (2, 2)], [(2, 2), (9, 9)]⟩
      1 2 (by decide)).1).trans (by decide)
  · exact ((createInitialBoard_precedence_spec ⟨4, [(1, 2)], [(1, 2), (2, 2)], [(2, 2), (9, 9)]⟩
      2 2 (by decide)).1).trans (by decide)
  · exact (createInitialBoard_precedence_spec ⟨4, [(1, 2)], [(1, 2), (2, 2)], [(2, 2), (9, 9)]⟩
      0 0 (by decide)).2

/-! ## C9: upload validation -/

/-- C9, counterexample. The claim says an analysis upload is rejected when
it reuses the player entry-point name studentStrategy, and that a strategy
upload is accepted only when it contains the strategy entry point; but the
analysis check accepts a text containing studentStrategy, and the strategy
check accepts a text with no studentStrategy at all (an anonymous
function-paren header suffices). -/
theorem upload_validation_cex :
    analysisUploadCheck analysisDualCode = Except.ok () ∧
    includesStr analysisDualCode "studentStrategy" = true ∧
    importStrategyCheck strategyAnonCode = Except.ok () ∧
    includesStr strategyAnonCode "studentStrategy" = false := by
  refine ⟨rfl, by decide, rfl, by decide⟩

/-- C9, amended claim: a strategy upload is accepted iff it is nonempty,
contains the substring studentStrategy or the substring function-paren,
and does not contain the substring analyzeStage; an analysis upload is
accepted iff it is nonempty and contains the substring
function-analyzeStage or the substring analyzeStage-equals - no check
against studentStrategy is applied to analysis uploads. Both checks are
plain substring matches. -/
theorem upload_validation_amended_spec (code : String) :
    (importStrategyCheck code = Except.ok () ↔
      (code.isEmpty = false ∧
       (includesStr code "studentStrategy" = true ∨ includesStr code "function(" = true) ∧
       includesStr code "analyzeStage" = false)) ∧
    (analysisUploadCheck code = Except.ok () ↔
      (code.isEmpty = false ∧
       (includesStr code "function analyzeStage" = true ∨
        includesStr code "analyzeStage =" = true))) := by
  constructor
  · by_cases h1 : code.isEmpty = true
    · simp [importStrategyCheck, h1]
    · by_cases h2 : (includesStr code "studentStrategy" || includesStr code "function(") = true
      · by_cases h3 : includesStr code "analyzeStage" = true
        · simp [importStrategyCheck, h1, h2, h3]
        · simp [importStrategyCheck, h1, h2, h3]
          simpa using h2
      · simp [importStrategyCheck, h1, h2]
        intro h
        rcases (show includesStr code "studentStrategy" = false ∧
            includesStr code "function(" = false by simpa using h2) with ⟨ha, hb⟩
        rcases h with h | h <;> simp_all
  · by_cases h1 : code.isEmpty = true
    · simp [analysisUploadCheck, h1]
    · by_cases h2 : (includesStr code "function analyzeStage" ||
          includesStr code "analyzeStage =") = true
      · simp [analysisUploadCheck, h1, h2]
        simpa using h2
      · simp [analysisUploadCheck, h1, h2]
        simpa using h2

/-- C9 witness for the amended characterization: a code text containing
only the anonymous function-paren marker is accepted as a strategy, via
the right-to-left direction of the theorem. -/
theorem upload_validation_amended_spec_witness :
    importStrategyCheck strategyAnonCode = Except.ok () ∧
    analysisUploadCheck analysisDualCode = Except.ok () := by
  constructor
  · exact (upload_validation_amended_spec strategyAnonCode).1.mpr
      ⟨by decide, Or.inr (by decide), by decide⟩
  · exact (upload_validation_amended_spec analysisDualCode).2.mpr
      ⟨by decide, Or.inl (by decide)⟩

/-! ## C8: analysis fallback strategy -/

/-- C8, counterexample. The substituted last-resort strategy does not pick
the first legal move: with random index 1 on a two-move list it returns
the second move, not the head of the list. -/
theorem analysis_fallback_not_first_cex :
    analyzeStageStrategy none emptyBoard4 Player.black [(0, 0), (1, 1)] 1 = some (1, 1) ∧
    (((1, 1) : Int × Int)) ≠ ((0, 0) : Int × Int) ∧
    ([((0 : Int), (0 : Int)), (1, 1)]).head? = some ((0 : Int), (0 : Int)) := by
  refine ⟨by decide, by decide, rfl⟩

/-- C8, amended claim: when the analysis function does not return an
invocable value, the Analysis Pipeline substitutes a last-resort strategy
that picks a uniformly random member of the legal-move list (null on an
empty list) rather than failing outright, so the caller always receives a
usable strategy handle. -/
theorem analysis_fallback_amended_spec (b : Board) (pl : Player)
    (vm : List (Int × Int)) (idx : Nat) :
    (idx < vm.length →
      ∃ m, analyzeStageStrategy none b pl vm idx = some m ∧ m ∈ vm) ∧
    (vm = [] → analyzeStageStrategy none b pl vm idx = none) := by
  constructor
  · intro h
    refine ⟨vm[idx], ?_, List.getElem_mem h⟩
    have hne : vm.isEmpty = false := by
      cases vm
      · simp at h
      · rfl
    simp [analyzeStageStrategy, fallbackRandomStrategy, hne, List.getElem?_eq_getElem h]
  · intro h
    subst h
    rfl

/-- C8 witness: the amended theorem applied at a concrete two-element legal
move list with random index 1, and at the empty list. -/
theorem analysis_fallback_amended_spec_witness :
    (∃ m, analyzeStageStrategy none emptyBoard4 Player.black [((2 : Int), (3 : Int)), (0, 1)] 1 =
        some m ∧ m ∈ [((2 : Int), (3 : Int)), (0, 1)]) ∧
    analyzeStageStrategy none emptyBoard4 Player.black [] 0 = none := by
  constructor
  · exact (analysis_fallback_amended_spec emptyBoard4 Player.black
      [((2 : Int), (3 : Int)), (0, 1)] 1).1 (by decide)
  · exact (analysis_fallback_amended_spec emptyBoard4 Player.black [] 0).2 rfl

/-! ## C7: fallback penalty -/

/-- C7, counterexample. At cumulative time 9950 ms, a strategy returning
the non-member move (0,0) triggers the inline random substitution
(isFallback is true) in makeAIMove, yet the player's time stays 9950 ms -
no 100 ms penalty is added and the budget is not re-checked, although
9950 + 100 would exceed the 10000 ms budget and the claim would therefore
require the game to end by forfeit. -/
theorem fallback_no_penalty_cex :
    (makeAIMoveStep centerBoard4 false Player.black
        (getValidMoves centerBoard4 false Player.black) (some (0, 0)) 0 9950).map
        (fun o => (o.isFallback, o.timeAfterValidate)) = some (true, 9950) ∧
    movesContain (getValidMoves centerBoard4 false Player.black) (0, 0) = false ∧
    9950 + 100 > MAX_AI_TIME_PER_GAME ∧
    (9950 : Nat) ≠ 9950 + 100 := by
  refine ⟨by decide, by decide, by decide, by decide⟩

/-- C7, amended claim: the 100 ms penalty is applied only on the
useFallbackMove path (taken when the strategy function is missing or the
turn threw an error), where it is added to the player's usage before the
time budget is re-checked (exceeding it there ends the game); the inline
substitution for a null or non-member returned move inside makeAIMove
applies no time penalty and does not re-check the budget - the recorded
time is exactly the already-accumulated usage. -/
theorem fallback_penalty_amended_spec (b : Board) (ign : Bool) (pl : Player)
    (vm : List (Int × Int)) (returned : Option (Int × Int)) (idx t : Nat) :
    (∀ o : TurnOutcome, makeAIMoveStep b ign pl vm returned idx t = some o →
      o.timeAfterValidate = t) ∧
    (vm ≠ [] → t + 100 ≤ MAX_AI_TIME_PER_GAME → idx < vm.length →
      ∃ o : FallbackOutcome, useFallbackMoveStep b ign pl vm idx t = some o ∧
        o.timeAfterPenalty = t + 100 ∧ o.move ∈ vm) ∧
    (vm ≠ [] → t + 100 > MAX_AI_TIME_PER_GAME →
      useFallbackMoveStep b ign pl vm idx t = none) := by
  refine ⟨?_, ?_, ?_⟩
  · intro o h
    unfold makeAIMoveStep at h
    by_cases ht : t > MAX_AI_TIME_PER_GAME
    · simp [ht] at h
    · rw [if_neg ht] at h
      rcases Option.map_eq_some'.mp h with ⟨p, _, hpo⟩
      rw [← hpo]
  · intro hne hle hidx
    have hbne : vm.isEmpty = false := by
      cases vm
      · exact absurd rfl hne
      · rfl
    refine ⟨⟨vm[idx], t + 100, (makeMove b ign pl vm[idx].1 vm[idx].2).1⟩, ?_, rfl,
      List.getElem_mem hidx⟩
    have hnotgt : ¬(t + 100 > MAX_AI_TIME_PER_GAME) := by omega
    simp [useFallbackMoveStep, hbne, hnotgt, List.getElem?_eq_getElem hidx]
  · intro hne hgt
    have hbne : vm.isEmpty = false := by
      cases vm
      · exact absurd rfl hne
      · rfl
    simp [useFallbackMoveStep, hbne, hgt]

/-- C7 witness: the amended theorem at concrete inputs - the inline
substitution keeps the time at 9950 ms, useFallbackMove at 500 ms charges
exactly 100 ms, and useFallbackMove at 9950 ms ends the game on the
re-check. -/
theorem fallback_penalty_amended_spec_witness :
    (∃ o : FallbackOutcome, useFallbackMoveStep centerBoard4 false Player.black
        (getValidMoves centerBoard4 false Player.black) 0 500 = some o ∧
      o.timeAfterPenalty = 500 + 100 ∧
      o.move ∈ getValidMoves centerBoard4 false Player.black) ∧
    useFallbackMoveStep centerBoard4 false Player.black
      (getValidMoves centerBoard4 false Player.black) 0 9950 = none := by
  constructor
  · exact (fallback_penalty_amended_spec centerBoard4 false Player.black
      (getValidMoves centerBoard4 false Player.black) none 0 500).2.1
      (by decide) (by decide) (by decide)
  · exact (fallback_penalty_amended_spec centerBoard4 false Player.black
      (getValidMoves centerBoard4 false Player.black) none 0 9950).2.2
      (by decide) (by decide)

/-! ## C2: substitution applies one legal move -/

/-- C2. Whenever the strategy returned null or a move that is not an exact
member of the precomputed legal-move list (and the game has not already
ended on the time check), the scheduler substitutes a move that IS a
member of that list and the turn applies exactly one makeMove call with
that substituted move. -/
theorem fallback_substitution_member_spec (b : Board) (ign : Bool) (pl : Player)
    (vm : List (Int × Int)) (returned : Option (Int × Int)) (idx t : Nat)
    (_hvm : vm = getValidMoves b ign pl)
    (hbad : returned = none ∨ ∃ mv, returned = some mv ∧ movesContain vm mv = false)
    (hidx : idx < vm.length) (ht : ¬t > MAX_AI_TIME_PER_GAME) :
    ∃ o : TurnOutcome, makeAIMoveStep b ign pl vm returned idx t = some o ∧
      o.isFallback = true ∧ o.actualMove ∈ vm ∧
      o.newBoard = (makeMove b ign pl o.actualMove.1 o.actualMove.2).1 := by
  have hpick : pickActualMove vm returned idx = some (vm[idx], true) := by
    rcases hbad with h | ⟨mv, hmv, hcontain⟩
    · subst h
      simp [pickActualMove, List.getElem?_eq_getElem hidx]
    · subst hmv
      simp [pickActualMove, hcontain, List.getElem?_eq_getElem hidx]
  refine ⟨⟨vm[idx], true, t, (makeMove b ign pl vm[idx].1 vm[idx].2).1⟩, ?_, rfl,
    List.getElem_mem hidx, rfl⟩
  simp [makeAIMoveStep, ht, hpick]

/-- C2 witness: on the 4x4 centre board, a strategy returning the
non-member move (0,0) gets replaced by a legal move and exactly that move
is applied. -/
theorem fallback_substitution_member_spec_witness :
    movesContain (getValidMoves centerBoard4 false Player.black) (0, 0) = false ∧
    (∃ o : TurnOutcome, makeAIMoveStep centerBoard4 false Player.black
        (getValidMoves centerBoard4 false Player.black) (some (0, 0)) 0 0 = some o ∧
      o.isFallback = true ∧ o.actualMove ∈ getValidMoves centerBoard4 false Player.black ∧
      o.newBoard = (makeMove centerBoard4 false Player.black o.actualMove.1
        o.actualMove.2).1) := by
  refine ⟨by decide, ?_⟩
  exact fallback_substitution_member_spec centerBoard4 false Player.black
    (getValidMoves centerBoard4 false Player.black) (some (0, 0)) 0 0 rfl
    (Or.inr ⟨(0, 0), rfl, by decide⟩) (by decide) (by decide)

/-! ## C4: legal-move enumeration -/

theorem filterMap_guard {α β : Type _} (l : List α) (p : β → Bool) (f : α → β) :
    List.filterMap (fun x => if p (f x) = true then some (f x) else none) l =
      List.filter p (List.map f l) := by
  induction l with
  | nil => rfl
  | cons a as ih =>
    rcases ha : p (f a) with _ | _
    · simp [List.filterMap_cons, List.filter_cons, ha, ih]
    · simp [List.filterMap_cons, List.filter_cons, ha, ih]

theorem filter_flatMapList {α β : Type _} (l : List α) (g : α → List β) (p : β → Bool) :
    (l.flatMap g).filter p = l.flatMap fun a => (g a).filter p := by
  induction l with
  | nil => rfl
  | cons a l ih => simp [List.flatMap_cons, List.filter_append, ih]

theorem getValidMoves_eq_filter (b : Board) (ign : Bool) (pl : Player) :
    getValidMoves b ign pl =
      (rowMajorCoords b.length).filter fun q => isValidMove b ign pl q.1 q.2 := by
  unfold getValidMoves rowMajorCoords
  rw [filter_flatMapList]
  congr 1
  funext r
  exact filterMap_guard (List.range b.length) (fun q => isValidMove b ign pl q.1 q.2)
    (fun c : Nat => (Int.ofNat r, Int.ofNat c))

theorem mem_rowMajorCoords (n : Nat) (p : Int × Int) :
    p ∈ rowMajorCoords n ↔ 0 ≤ p.1 ∧ p.1 < (n : Int) ∧ 0 ≤ p.2 ∧ p.2 < (n : Int) := by
  obtain ⟨pr, pc⟩ := p
  unfold rowMajorCoords
  rw [List.mem_flatMap]
  constructor
  · rintro ⟨r, hr, hp⟩
    rw [List.mem_map] at hp
    obtain ⟨c, hc, heq⟩ := hp
    rw [List.mem_range] at hr hc
    injection heq with h1 h2
    subst h1
    subst h2
    simp only [Int.ofNat_eq_coe]
    refine ⟨by omega, by omega, by omega, by omega⟩
  · rintro ⟨h1, h2, h3, h4⟩
    refine ⟨pr.toNat, ?_, ?_⟩
    · rw [List.mem_range]
      omega
    · rw [List.mem_map]
      refine ⟨pc.toNat, ?_, ?_⟩
      · rw [List.mem_range]
        omega
      · exact Prod.ext (Int.toNat_of_nonneg h1) (Int.toNat_of_nonneg h3)

theorem isValidMove_within (b : Board) (ign : Bool) (pl : Player) (row col : Int)
    (h : isValidMove b ign pl row col = true) : withinBoard b.length row col = true := by
  by_contra hw
  have hfalse : withinBoard b.length row col = false := Bool.eq_false_iff.mpr hw
  simp [isValidMove, hfalse] at h

theorem pairwise_rowMajorCoords (n : Nat) : (rowMajorCoords n).Pairwise rowMajorLt := by
  unfold rowMajorCoords
  rw [List.flatMap_def, List.pairwise_flatten]
  constructor
  · intro l hl
    rw [List.mem_map] at hl
    obtain ⟨r, _, rfl⟩ := hl
    rw [List.pairwise_map]
    refine (List.pairwise_lt_range n).imp ?_
    intro c1 c2 h
    right
    exact ⟨rfl, Int.ofNat_lt.mpr h⟩
  · rw [List.pairwise_map]
    refine (List.pairwise_lt_range n).imp ?_
    intro r1 r2 h x hx y hy
    rw [List.mem_map] at hx hy
    obtain ⟨c1, _, rfl⟩ := hx
    obtain ⟨c2, _, rfl⟩ := hy
    exact Or.inl (Int.ofNat_lt.mpr h)

/-- C4. getValidMoves returns exactly the coordinates on which isValidMove
holds - soundness and completeness - and the returned list is strictly
ordered row-major (top-left to bottom-right). -/
theorem getValidMoves_consistency_spec (b : Board) (ign : Bool) (pl : Player) :
    (∀ p : Int × Int, p ∈ getValidMoves b ign pl ↔ isValidMove b ign pl p.1 p.2 = true) ∧
    (getValidMoves b ign pl).Pairwise rowMajorLt := by
  constructor
  · intro p
    rw [getValidMoves_eq_filter, List.mem_filter]
    constructor
    · exact fun h => h.2
    · intro h
      refine ⟨?_, h⟩
      rw [mem_rowMajorCoords]
      exact (withinBoard_iff b.length p.1 p.2).mp (isValidMove_within b ign pl p.1 p.2 h)
  · rw [getValidMoves_eq_filter]
    exact (pairwise_rowMajorCoords b.length).sublist (List.filter_sublist _)

/-- C4 witness: on the standard 8x8 opening board, (2,3) is a Black legal
move and is accordingly a member of the enumeration, via the consistency
theorem. -/
theorem getValidMoves_consistency_spec_witness :
    isValidMove (createInitialBoard stdStage8) false Player.black 2 3 = true ∧
    ((2 : Int), (3 : Int)) ∈ getValidMoves (createInitialBoard stdStage8) false Player.black := by
  refine ⟨by decide, ?_⟩
  exact ((getValidMoves_consistency_spec (createInitialBoard stdStage8) false
    Player.black).1 (2, 3)).mpr (by decide)

/-! ## C6: occlusion scenario -/

theorem length_occBoard (n k m : Nat) : (occBoard n k m).length = n := by
  simp [occBoard]

theorem cellAt_occBoard (n k m : Nat) (r c : Int) (h1 : 0 ≤ r) (h2 : r < (n : Int))
    (h3 : 0 ≤ c) (h4 : c < (n : Int)) :
    cellAt (occBoard n k m) r c =
      (if r = 0 then occRowCell k m c.toNat else Cell.empty) := by
  unfold cellAt occBoard
  rw [getD_map_range _ n r.toNat _ (by omega)]
  rw [getD_map_range _ n c.toNat _ (by omega)]
  by_cases h : r.toNat = 0
  · rw [if_pos h, if_pos (by omega)]
  · rw [if_neg h, if_neg (by omega)]

theorem boardDims_occBoard (n k m : Nat) : boardDims (occBoard n k m) n := by
  refine ⟨length_occBoard n k m, fun i hi => ?_⟩
  unfold occBoard
  rw [getD_map_range _ n i _ hi]
  simp

theorem occRowCell_zero (k m : Nat) : occRowCell k m 0 = Cell.empty := rfl

theorem occRowCell_white1 (k m c : Nat) (h1 : 1 ≤ c) (h2 : c ≤ k) :
    occRowCell k m c = Cell.white := by
  unfold occRowCell
  rw [if_neg (by omega), if_pos h2]

theorem occRowCell_blockedCell (k m : Nat) : occRowCell k m (k + 1) = Cell.blocked := by
  unfold occRowCell
  rw [if_neg (by omega), if_neg (by omega), if_pos rfl]

theorem occRowCell_white2 (k m c : Nat) (h1 : k + 2 ≤ c) (h2 : c ≤ m) :
    occRowCell k m c = Cell.white := by
  unfold occRowCell
  rw [if_neg (by omega), if_neg (by omega), if_neg (by omega), if_pos h2]

theorem occRowCell_own (k m : Nat) (h : k + 2 ≤ m) :
    occRowCell k m (m + 1) = Cell.black := by
  unfold occRowCell
  rw [if_neg (by omega), if_neg (by omega), if_neg (by omega), if_neg (by omega), if_pos rfl]

theorem scanDirValid_out (b : Board) (n : Nat) (pl : Player) (ign : Bool) (dr dc : Int)
    (fo fb : Bool) (r c : Int) (fuel : Nat) (hw : withinBoard n r c = false) :
    scanDirValid b n pl ign dr dc fo fb r c fuel = false := by
  cases fuel
  · rfl
  · simp [scanDirValid, hw]

theorem scanDirValid_step_empty (b : Board) (n : Nat) (pl : Player) (ign : Bool) (dr dc : Int)
    (fo fb : Bool) (r c : Int) (fuel : Nat) (hw : withinBoard n r c = true)
    (hc : cellAt b r c = Cell.empty) :
    scanDirValid b n pl ign dr dc fo fb r c fuel = false := by
  cases fuel
  · rfl
  · simp [scanDirValid, hw, hc]

theorem scanDirValid_step_opp (b : Board) (n : Nat) (ign : Bool) (dr dc : Int)
    (fo fb : Bool) (r c : Int) (fuel : Nat) (hw : withinBoard n r c = true)
    (hc : cellAt b r c = Cell.white) :
    scanDirValid b n Player.black ign dr dc fo fb r c (fuel + 1) =
      scanDirValid b n Player.black ign dr dc true fb (r + dr) (c + dc) fuel := by
  simp [scanDirValid, hw, hc, Player.disc]

theorem scanDirValid_step_blocked (b : Board) (n : Nat) (ign : Bool) (dr dc : Int)
    (fo fb : Bool) (r c : Int) (fuel : Nat) (hw : withinBoard n r c = true)
    (hc : cellAt b r c = Cell.blocked) :
    scanDirValid b n Player.black ign dr dc fo fb r c (fuel + 1) =
      (if ign then scanDirValid b n Player.black ign dr dc fo true (r + dr) (c + dc) fuel
       else false) := by
  simp [scanDirValid, hw, hc]

theorem scanDirValid_step_own (b : Board) (n : Nat) (ign : Bool) (dr dc : Int)
    (fo fb : Bool) (r c : Int) (fuel : Nat) (hw : withinBoard n r c = true)
    (hc : cellAt b r c = Cell.black) :
    scanDirValid b n Player.black ign dr dc fo fb r c (fuel + 1) = (fo && (!fb || ign)) := by
  simp [scanDirValid, hw, hc, Player.disc]

theorem scanDirValid_white_run (b : Board) (n : Nat) (ign : Bool) :
    ∀ (d : Nat) (j : Int) (fo fb : Bool) (fuel : Nat),
      (∀ i : Nat, i < d → withinBoard n 0 (j + (i : Int)) = true ∧
        cellAt b 0 (j + (i : Int)) = Cell.white) →
      scanDirValid b n Player.black ign 0 1 fo fb 0 j (d + fuel) =
        scanDirValid b n Player.black ign 0 1 (fo || decide (0 < d)) fb 0 (j + (d : Int)) fuel := by
  intro d
  induction d with
  | zero =>
    intro j fo fb fuel h
    simp
  | succ d ih =>
    intro j fo fb fuel h
    have h0 := h 0 (by omega)
    rw [show j + ((0 : Nat) : Int) = j by simp] at h0
    have hstep := scanDirValid_step_opp b n ign 0 1 fo fb 0 j (d + fuel) h0.1 h0.2
    rw [show d + 1 + fuel = (d + fuel) + 1 by omega, hstep]
    rw [show (0 : Int) + 0 = 0 by simp]
    rw [ih (j + 1) true fb fuel ?_]
    · have hpos : j + 1 + (d : Int) = j + ((d + 1 : Nat) : Int) := by push_cast; ring
      have hdec : decide (0 < d + 1) = true := by simp
      rw [hpos, hdec]
      simp
    · intro i hi
      have hh := h (i + 1) (by omega)
      have hcast : j + ((i + 1 : Nat) : Int) = j + 1 + (i : Int) := by push_cast; ring
      rw [hcast] at hh
      exact hh

/-- Within-board fact for the scenario row cells. -/
theorem occ_within (n : Nat) (j : Int) (h1 : 0 ≤ j) (h2 : j < (n : Int)) :
    withinBoard n 0 j = true :=
  (withinBoard_iff n 0 j).mpr ⟨by omega, by omega, h1, h2⟩

theorem occ_cells_run1 (n k m : Nat) (hm : k + 2 ≤ m) (hn : m + 2 ≤ n) :
    ∀ i : Nat, i < k → withinBoard n 0 ((1 : Int) + (i : Int)) = true ∧
      cellAt (occBoard n k m) 0 ((1 : Int) + (i : Int)) = Cell.white := by
  intro i hi
  refine ⟨occ_within n _ (by omega) (by omega), ?_⟩
  rw [cellAt_occBoard n k m 0 _ (by omega) (by omega) (by omega) (by omega), if_pos rfl]
  rw [show ((1 : Int) + (i : Int)).toNat = 1 + i by omega]
  exact occRowCell_white1 k m (1 + i) (by omega) (by omega)

theorem occ_cells_run2 (n k m : Nat) (hm : k + 2 ≤ m) (hn : m + 2 ≤ n) :
    ∀ i : Nat, i < m - k - 1 → withinBoard n 0 ((1 : Int) + (k : Int) + 1 + (i : Int)) = true ∧
      cellAt (occBoard n k m) 0 ((1 : Int) + (k : Int) + 1 + (i : Int)) = Cell.white := by
  intro i hi
  refine ⟨occ_within n _ (by omega) (by omega), ?_⟩
  rw [cellAt_occBoard n k m 0 _ (by omega) (by omega) (by omega) (by omega), if_pos rfl]
  rw [show ((1 : Int) + (k : Int) + 1 + (i : Int)).toNat = k + 2 + i by omega]
  exact occRowCell_white2 k m (k + 2 + i) (by omega) (by omega)

theorem occ_scan_valid (n k m : Nat) (ign : Bool) (hk : 1 ≤ k) (hm : k + 2 ≤ m)
    (hn : m + 2 ≤ n) :
    scanDirValid (occBoard n k m) n Player.black ign 0 1 false false 0 1 n = ign := by
  have run1 := scanDirValid_white_run (occBoard n k m) n ign k 1 false false (n - k)
    (occ_cells_run1 n k m hm hn)
  rw [show k + (n - k) = n by omega] at run1
  rw [show (false || decide (0 < k)) = true by simpa using hk] at run1
  have hwB : withinBoard n 0 ((1 : Int) + (k : Int)) = true :=
    occ_within n _ (by omega) (by omega)
  have hcB : cellAt (occBoard n k m) 0 ((1 : Int) + (k : Int)) = Cell.blocked := by
    rw [cellAt_occBoard n k m 0 _ (by omega) (by omega) (by omega) (by omega), if_pos rfl]
    rw [show ((1 : Int) + (k : Int)).toNat = k + 1 by omega]
    exact occRowCell_blockedCell k m
  have stepB := scanDirValid_step_blocked (occBoard n k m) n ign 0 1 true false 0
    ((1 : Int) + (k : Int)) (n - k - 1) hwB hcB
  rw [show (0 : Int) + 0 = 0 by simp] at stepB
  cases hig : ign
  · rw [hig] at run1 stepB
    rw [if_neg (by simp)] at stepB
    rw [run1, show n - k = (n - k - 1) + 1 by omega, stepB]
  · rw [hig] at run1 stepB
    rw [if_pos rfl] at stepB
    have run2 := scanDirValid_white_run (occBoard n k m) n true (m - k - 1)
      ((1 : Int) + (k : Int) + 1) true true (n - m) (occ_cells_run2 n k m hm hn)
    rw [show (m - k - 1) + (n - m) = n - k - 1 by omega] at run2
    rw [show (true || decide (0 < m - k - 1)) = true by simp] at run2
    have hwO : withinBoard n 0 ((1 : Int) + (k : Int) + 1 + ((m - k - 1 : Nat) : Int)) = true :=
      occ_within n _ (by omega) (by omega)
    have hcO : cellAt (occBoard n k m) 0 ((1 : Int) + (k : Int) + 1 + ((m - k - 1 : Nat) : Int)) =
        Cell.black := by
      rw [cellAt_occBoard n k m 0 _ (by omega) (by omega) (by omega) (by omega), if_pos rfl]
      rw [show ((1 : Int) + (k : Int) + 1 + ((m - k - 1 : Nat) : Int)).toNat = m + 1 by omega]
      exact occRowCell_own k m hm
    have stepO := scanDirValid_step_own (occBoard n k m) n true 0 1 true true 0
      ((1 : Int) + (k : Int) + 1 + ((m - k - 1 : Nat) : Int)) (n - m - 1) hwO hcO
    rw [run1, show n - k = (n - k - 1) + 1 by omega, stepB, run2,
      show n - m = (n - m - 1) + 1 by omega, stepO]
    rfl

theorem scanDirFlips_out (b : Board) (n : Nat) (pl : Player) (ign : Bool) (dr dc : Int)
    (acc : List (Int × Int)) (fo fb : Bool) (r c : Int) (fuel : Nat)
    (hw : withinBoard n r c = false) :
    scanDirFlips b n pl ign dr dc acc fo fb r c fuel = [] := by
  cases fuel
  · rfl
  · simp [scanDirFlips, hw]

theorem scanDirFlips_step_empty (b : Board) (n : Nat) (pl : Player) (ign : Bool) (dr dc : Int)
    (acc : List (Int × Int)) (fo fb : Bool) (r c : Int) (fuel : Nat)
    (hw : withinBoard n r c = true) (hc : cellAt b r c = Cell.empty) :
    scanDirFlips b n pl ign dr dc acc fo fb r c fuel = [] := by
  cases fuel
  · rfl
  · simp [scanDirFlips, hw, hc]

theorem scanDirFlips_step_opp (b : Board) (n : Nat) (ign : Bool) (dr dc : Int)
    (acc : List (Int × Int)) (fo fb : Bool) (r c : Int) (fuel : Nat)
    (hw : withinBoard n r c = true) (hc : cellAt b r c = Cell.white) :
    scanDirFlips b n Player.black ign dr dc acc fo fb r c (fuel + 1) =
      scanDirFlips b n Player.black ign dr dc (acc ++ [(r, c)]) true fb (r + dr) (c + dc) fuel := by
  simp [scanDirFlips, hw, hc, Player.disc]

theorem scanDirFlips_step_blocked (b : Board) (n : Nat) (ign : Bool) (dr dc : Int)
    (acc : List (Int × Int)) (fo fb : Bool) (r c : Int) (fuel : Nat)
    (hw : withinBoard n r c = true) (hc : cellAt b r c = Cell.blocked) :
    scanDirFlips b n Player.black ign dr dc acc fo fb r c (fuel + 1) =
      (if ign then scanDirFlips b n Player.black ign dr dc acc fo true (r + dr) (c + dc) fuel
       else []) := by
  simp [scanDirFlips, hw, hc]

theorem scanDirFlips_step_own (b : Board) (n : Nat) (ign : Bool) (dr dc : Int)
    (acc : List (Int × Int)) (fo fb : Bool) (r c : Int) (fuel : Nat)
    (hw : withinBoard n r c = true) (hc : cellAt b r c = Cell.black) :
    scanDirFlips b n Player.black ign dr dc acc fo fb r c (fuel + 1) =
      (if fo && !acc.isEmpty && (!fb || ign) then acc else []) := by
  simp [scanDirFlips, hw, hc, Player.disc]

theorem scanDirFlips_white_run (b : Board) (n : Nat) (ign : Bool) :
    ∀ (d : Nat) (j : Int) (acc : List (Int × Int)) (fo fb : Bool) (fuel : Nat),
      (∀ i : Nat, i < d → withinBoard n 0 (j + (i : Int)) = true ∧
        cellAt b 0 (j + (i : Int)) = Cell.white) →
      scanDirFlips b n Player.black ign 0 1 acc fo fb 0 j (d + fuel) =
        scanDirFlips b n Player.black ign 0 1
          (acc ++ (List.range d).map fun i : Nat => ((0 : Int), j + (i : Int)))
          (fo || decide (0 < d)) fb 0 (j + (d : Int)) fuel := by
  intro d
  induction d with
  | zero =>
    intro j acc fo fb fuel h
    simp
  | succ d ih =>
    intro j acc fo fb fuel h
    have h0 := h 0 (by omega)
    rw [show j + ((0 : Nat) : Int) = j by simp] at h0
    have hstep := scanDirFlips_step_opp b n ign 0 1 acc fo fb 0 j (d + fuel) h0.1 h0.2
    rw [show d + 1 + fuel = (d + fuel) + 1 by omega, hstep]
    rw [show (0 : Int) + 0 = 0 by simp]
    rw [ih (j + 1) (acc ++ [((0 : Int), j)]) true fb fuel ?_]
    · have hlist : (acc ++ [((0 : Int), j)]) ++
          (List.range d).map (fun i : Nat => ((0 : Int), j + 1 + (i : Int))) =
          acc ++ (List.range (d + 1)).map (fun i : Nat => ((0 : Int), j + (i : Int))) := by
        rw [List.append_assoc]
        congr 1
        rw [List.range_succ_eq_map, List.map_cons, List.map_map, List.singleton_append]
        congr 1
        · simp
        · congr 1
          funext i
          simp only [Function.comp]
          congr 1
          push_cast
          ring
      have hpos : j + 1 + (d : Int) = j + ((d + 1 : Nat) : Int) := by push_cast; ring
      have hdec : decide (0 < d + 1) = true := by simp
      rw [hlist, hpos, hdec]
      simp
    · intro i hi
      have hh := h (i + 1) (by omega)
      have hcast : j + ((i + 1 : Nat) : Int) = j + 1 + (i : Int) := by push_cast; ring
      rw [hcast] at hh
      exact hh

theorem occRuns_ne_nil (k m : Nat) (hk : 1 ≤ k) : occRun1 k ++ occRun2 k m ≠ [] := by
  intro hE
  have h1 := (List.append_eq_nil.mp hE).1
  rw [occRun1, List.map_eq_nil_iff, List.range_eq_nil] at h1
  omega

theorem occRuns_fst_zero (k m : Nat) (p : Int × Int) (hp : p ∈ occRun1 k ++ occRun2 k m) :
    p.1 = 0 := by
  rcases List.mem_append.mp hp with h | h
  · rw [occRun1, List.mem_map] at h
    obtain ⟨i, _, rfl⟩ := h
    rfl
  · rw [occRun2, List.mem_map] at h
    obtain ⟨i, _, rfl⟩ := h
    rfl

theorem occRuns_snd (k m : Nat) (p : Int × Int) (hp : p ∈ occRun1 k ++ occRun2 k m) :
    (1 ≤ p.2 ∧ p.2 ≤ (k : Int)) ∨ ((k : Int) + 2 ≤ p.2 ∧ p.2 ≤ (m : Int)) := by
  rcases List.mem_append.mp hp with h | h
  · rw [occRun1, List.mem_map] at h
    obtain ⟨i, hi, rfl⟩ := h
    rw [List.mem_range] at hi
    left
    constructor <;> simp <;> omega
  · rw [occRun2, List.mem_map] at h
    obtain ⟨i, hi, rfl⟩ := h
    rw [List.mem_range] at hi
    right
    constructor <;> simp <;> omega

theorem cellAt_occPlaced (n k m : Nat) (j : Int) (hj : 1 ≤ j) :
    cellAt (occPlaced n k m) 0 j = cellAt (occBoard n k m) 0 j := by
  apply cellAt_setCell_ne
  right
  omega

theorem cellAt_occPlaced_row (n k m : Nat) (r c : Int) (hr : 1 ≤ r) :
    cellAt (occPlaced n k m) r c = cellAt (occBoard n k m) r c := by
  apply cellAt_setCell_ne
  left
  omega

theorem boardDims_occPlaced (n k m : Nat) : boardDims (occPlaced n k m) n :=
  boardDims_setCell _ n 0 0 _ (boardDims_occBoard n k m)

theorem occ_cells_run1_placed (n k m : Nat) (hm : k + 2 ≤ m) (hn : m + 2 ≤ n) :
    ∀ i : Nat, i < k → withinBoard n 0 ((1 : Int) + (i : Int)) = true ∧
      cellAt (occPlaced n k m) 0 ((1 : Int) + (i : Int)) = Cell.white := by
  intro i hi
  refine ⟨(occ_cells_run1 n k m hm hn i hi).1, ?_⟩
  rw [cellAt_occPlaced n k m _ (by omega)]
  exact (occ_cells_run1 n k m hm hn i hi).2

theorem occ_cells_run2_placed (n k m : Nat) (hm : k + 2 ≤ m) (hn : m + 2 ≤ n) :
    ∀ i : Nat, i < m - k - 1 →
      withinBoard n 0 ((1 : Int) + (k : Int) + 1 + (i : Int)) = true ∧
      cellAt (occPlaced n k m) 0 ((1 : Int) + (k : Int) + 1 + (i : Int)) = Cell.white := by
  intro i hi
  refine ⟨(occ_cells_run2 n k m hm hn i hi).1, ?_⟩
  rw [cellAt_occPlaced n k m _ (by omega)]
  exact (occ_cells_run2 n k m hm hn i hi).2

theorem occ_scanFlips (n k m : Nat) (hk : 1 ≤ k) (hm : k + 2 ≤ m) (hn : m + 2 ≤ n) :
    scanDirFlips (occPlaced n k m) n Player.black true 0 1 [] false false 0 1 n =
      occRun1 k ++ occRun2 k m := by
  have run1 := scanDirFlips_white_run (occPlaced n k m) n true k 1 [] false false (n - k)
    (occ_cells_run1_placed n k m hm hn)
  rw [show k + (n - k) = n by omega, List.nil_append,
    show (false || decide (0 < k)) = true by simpa using hk] at run1
  have hwB : withinBoard n 0 ((1 : Int) + (k : Int)) = true :=
    occ_within n _ (by omega) (by omega)
  have hcB : cellAt (occPlaced n k m) 0 ((1 : Int) + (k : Int)) = Cell.blocked := by
    rw [cellAt_occPlaced n k m _ (by omega)]
    rw [cellAt_occBoard n k m 0 _ (by omega) (by omega) (by omega) (by omega), if_pos rfl]
    rw [show ((1 : Int) + (k : Int)).toNat = k + 1 by omega]
    exact occRowCell_blockedCell k m
  have stepB := scanDirFlips_step_blocked (occPlaced n k m) n true 0 1 (occRun1 k)
    true false 0 ((1 : Int) + (k : Int)) (n - k - 1) hwB hcB
  rw [if_pos rfl, show (0 : Int) + 0 = 0 by simp] at stepB
  have run2 := scanDirFlips_white_run (occPlaced n k m) n true (m - k - 1)
    ((1 : Int) + (k : Int) + 1) (occRun1 k) true true (n - m)
    (occ_cells_run2_placed n k m hm hn)
  rw [show (m - k - 1) + (n - m) = n - k - 1 by omega,
    show (true || decide (0 < m - k - 1)) = true by simp] at run2
  have hwO : withinBoard n 0 ((1 : Int) + (k : Int) + 1 + ((m - k - 1 : Nat) : Int)) = true :=
    occ_within n _ (by omega) (by omega)
  have hcO : cellAt (occPlaced n k m) 0
      ((1 : Int) + (k : Int) + 1 + ((m - k - 1 : Nat) : Int)) = Cell.black := by
    rw [cellAt_occPlaced n k m _ (by omega)]
    rw [cellAt_occBoard n k m 0 _ (by omega) (by omega) (by omega) (by omega), if_pos rfl]
    rw [show ((1 : Int) + (k : Int) + 1 + ((m - k - 1 : Nat) : Int)).toNat = m + 1 by omega]
    exact occRowCell_own k m hm
  have stepO := scanDirFlips_step_own (occPlaced n k m) n true 0 1 (occRun1 k ++ occRun2 k m)
    true true 0 ((1 : Int) + (k : Int) + 1 + ((m - k - 1 : Nat) : Int))
    (n - m - 1) hwO hcO
  have hguard : (true && !(occRun1 k ++ occRun2 k m).isEmpty && (!true || true)) = true := by
    have hne : (occRun1 k ++ occRun2 k m).isEmpty = false :=
      List.isEmpty_eq_false.mpr (occRuns_ne_nil k m hk)
    simp [hne]
  rw [hguard, if_pos rfl] at stepO
  rw [run1, show n - k = (n - k - 1) + 1 by omega]
  show scanDirFlips (occPlaced n k m) n Player.black true 0 1 (occRun1 k)
    true false 0 ((1 : Int) + (k : Int)) ((n - k - 1) + 1) = _
  rw [stepB, run2, show n - m = (n - m - 1) + 1 by omega]
  show scanDirFlips (occPlaced n k m) n Player.black true 0 1 (occRun1 k ++ occRun2 k m)
    true true 0 ((1 : Int) + (k : Int) + 1 + ((m - k - 1 : Nat) : Int))
    ((n - m - 1) + 1) = _
  rw [stepO]

theorem withinBoard_eq_false_iff (n : Nat) (r c : Int) :
    withinBoard n r c = false ↔ ¬(0 ≤ r ∧ r < (n : Int) ∧ 0 ≤ c ∧ c < (n : Int)) := by
  rw [Bool.eq_false_iff, Ne, withinBoard_iff]

theorem occ_move_cond (n k m : Nat) (hn : 1 ≤ n) :
    (withinBoard (occBoard n k m).length 0 0 &&
      decide (cellAt (occBoard n k m) 0 0 = Cell.empty)) = true := by
  have hc0 : cellAt (occBoard n k m) 0 0 = Cell.empty := by
    rw [cellAt_occBoard n k m 0 0 (by omega) (by omega) (by omega) (by omega), if_pos rfl]
    rfl
  have hw0 : withinBoard (occBoard n k m).length 0 0 = true := by
    rw [length_occBoard]
    exact occ_within n 0 (by omega) (by omega)
  rw [hw0, hc0]
  rfl

theorem occ_isValidMove (n k m : Nat) (ign : Bool) (hk : 1 ≤ k) (hm : k + 2 ≤ m)
    (hn : m + 2 ≤ n) :
    isValidMove (occBoard n k m) ign Player.black 0 0 = ign := by
  unfold isValidMove
  rw [occ_move_cond n k m (by omega), if_pos rfl, length_occBoard]
  cases hig : ign
  · rw [List.any_eq_false]
    intro d hd
    rw [show directions =
      [((-1 : Int), (-1 : Int)), (-1, 0), (-1, 1), (0, -1), (0, 1), (1, -1), (1, 0), (1, 1)]
      from rfl] at hd
    simp only [List.mem_cons, List.not_mem_nil, or_false] at hd
    rcases hd with rfl | rfl | rfl | rfl | rfl | rfl | rfl | rfl
    · show ¬scanDirValid (occBoard n k m) n Player.black false (-1) (-1) false false
        (0 + -1) (0 + -1) n = true
      rw [scanDirValid_out (occBoard n k m) n Player.black false (-1) (-1) false false
        (0 + -1) (0 + -1) n ((withinBoard_eq_false_iff n (0 + -1) (0 + -1)).mpr (by omega))]
      simp
    · show ¬scanDirValid (occBoard n k m) n Player.black false (-1) 0 false false
        (0 + -1) (0 + 0) n = true
      rw [scanDirValid_out (occBoard n k m) n Player.black false (-1) 0 false false
        (0 + -1) (0 + 0) n ((withinBoard_eq_false_iff n (0 + -1) (0 + 0)).mpr (by omega))]
      simp
    · show ¬scanDirValid (occBoard n k m) n Player.black false (-1) 1 false false
        (0 + -1) (0 + 1) n = true
      rw [scanDirValid_out (occBoard n k m) n Player.black false (-1) 1 false false
        (0 + -1) (0 + 1) n ((withinBoard_eq_false_iff n (0 + -1) (0 + 1)).mpr (by omega))]
      simp
    · show ¬scanDirValid (occBoard n k m) n Player.black false 0 (-1) false false
        (0 + 0) (0 + -1) n = true
      rw [scanDirValid_out (occBoard n k m) n Player.black false 0 (-1) false false
        (0 + 0) (0 + -1) n ((withinBoard_eq_false_iff n (0 + 0) (0 + -1)).mpr (by omega))]
      simp
    · show ¬scanDirValid (occBoard n k m) n Player.black false 0 1 false false (0 + 0) (0 + 1)
        n = true
      rw [show (0 : Int) + 0 = 0 by simp, show (0 : Int) + 1 = 1 by simp]
      rw [occ_scan_valid n k m false hk hm hn]
      simp
    · show ¬scanDirValid (occBoard n k m) n Player.black false 1 (-1) false false
        (0 + 1) (0 + -1) n = true
      rw [scanDirValid_out (occBoard n k m) n Player.black false 1 (-1) false false
        (0 + 1) (0 + -1) n ((withinBoard_eq_false_iff n (0 + 1) (0 + -1)).mpr (by omega))]
      simp
    · show ¬scanDirValid (occBoard n k m) n Player.black false 1 0 false false
        (0 + 1) (0 + 0) n = true
      rw [scanDirValid_step_empty (occBoard n k m) n Player.black false 1 0 false false
        (0 + 1) (0 + 0) n
        ((withinBoard_iff n (0 + 1) (0 + 0)).mpr ⟨by omega, by omega, by omega, by omega⟩)
        (by rw [cellAt_occBoard n k m (0 + 1) (0 + 0) (by omega) (by omega) (by omega)
          (by omega), if_neg (by omega)])]
      simp
    · show ¬scanDirValid (occBoard n k m) n Player.black false 1 1 false false
        (0 + 1) (0 + 1) n = true
      rw [scanDirValid_step_empty (occBoard n k m) n Player.black false 1 1 false false
        (0 + 1) (0 + 1) n
        ((withinBoard_iff n (0 + 1) (0 + 1)).mpr ⟨by omega, by omega, by omega, by omega⟩)
        (by rw [cellAt_occBoard n k m (0 + 1) (0 + 1) (by omega) (by omega) (by omega)
          (by omega), if_neg (by omega)])]
      simp
  · rw [List.any_eq_true]
    refine ⟨((0 : Int), (1 : Int)), by decide, ?_⟩
    show scanDirValid (occBoard n k m) n Player.black true 0 1 false false (0 + 0) (0 + 1)
      n = true
    rw [show (0 : Int) + 0 = 0 by simp, show (0 : Int) + 1 = 1 by simp]
    exact occ_scan_valid n k m true hk hm hn

theorem makeMoveDirStep_self (ign : Bool) (pl : Player) (row col : Int) (n : Nat)
    (acc : Board × Nat) (d : Int × Int)
    (h : scanDirFlips acc.1 n pl ign d.1 d.2 [] false false (row + d.1) (col + d.2) n = []) :
    makeMoveDirStep ign pl row col n acc d = acc := by
  unfold makeMoveDirStep
  rw [h]
  simp [flipAll]

theorem makeMoveDirStep_eq (ign : Bool) (pl : Player) (row col : Int) (n : Nat)
    (acc : Board × Nat) (d : Int × Int) (fl : List (Int × Int))
    (h : scanDirFlips acc.1 n pl ign d.1 d.2 [] false false (row + d.1) (col + d.2) n = fl) :
    makeMoveDirStep ign pl row col n acc d = (flipAll pl acc.1 fl, acc.2 + fl.length) := by
  unfold makeMoveDirStep
  rw [h]

theorem cellAt_occFlipped_row (n k m : Nat) (r c : Int) (hr : 1 ≤ r) :
    cellAt (occFlipped n k m) r c = cellAt (occBoard n k m) r c := by
  unfold occFlipped
  rw [cellAt_flipAll_ne]
  · exact cellAt_occPlaced_row n k m r c hr
  · intro p hp
    left
    have h0 := occRuns_fst_zero k m p hp
    omega

theorem occ_makeMove (n k m : Nat) (hk : 1 ≤ k) (hm : k + 2 ≤ m) (hn : m + 2 ≤ n) :
    (makeMove (occBoard n k m) true Player.black 0 0).1 = occFlipped n k m := by
  have s1 : makeMoveDirStep true Player.black 0 0 n (occPlaced n k m, 0)
      ((-1 : Int), (-1 : Int)) = (occPlaced n k m, 0) :=
    makeMoveDirStep_self true Player.black 0 0 n (occPlaced n k m, 0) ((-1 : Int), (-1 : Int))
      (scanDirFlips_out (occPlaced n k m) n Player.black true (-1) (-1) [] false false
        (0 + -1) (0 + -1) n ((withinBoard_eq_false_iff n (0 + -1) (0 + -1)).mpr (by omega)))
  have s2 : makeMoveDirStep true Player.black 0 0 n (occPlaced n k m, 0)
      ((-1 : Int), (0 : Int)) = (occPlaced n k m, 0) :=
    makeMoveDirStep_self true Player.black 0 0 n (occPlaced n k m, 0) ((-1 : Int), (0 : Int))
      (scanDirFlips_out (occPlaced n k m) n Player.black true (-1) 0 [] false false
        (0 + -1) (0 + 0) n ((withinBoard_eq_false_iff n (0 + -1) (0 + 0)).mpr (by omega)))
  have s3 : makeMoveDirStep true Player.black 0 0 n (occPlaced n k m, 0)
      ((-1 : Int), (1 : Int)) = (occPlaced n k m, 0) :=
    makeMoveDirStep_self true Player.black 0 0 n (occPlaced n k m, 0) ((-1 : Int), (1 : Int))
      (scanDirFlips_out (occPlaced n k m) n Player.black true (-1) 1 [] false false
        (0 + -1) (0 + 1) n ((withinBoard_eq_false_iff n (0 + -1) (0 + 1)).mpr (by omega)))
  have s4 : makeMoveDirStep true Player.black 0 0 n (occPlaced n k m, 0)
      ((0 : Int), (-1 : Int)) = (occPlaced n k m, 0) :=
    makeMoveDirStep_self true Player.black 0 0 n (occPlaced n k m, 0) ((0 : Int), (-1 : Int))
      (scanDirFlips_out (occPlaced n k m) n Player.black true 0 (-1) [] false false
        (0 + 0) (0 + -1) n ((withinBoard_eq_false_iff n (0 + 0) (0 + -1)).mpr (by omega)))
  have s5 : makeMoveDirStep true Player.black 0 0 n (occPlaced n k m, 0)
      ((0 : Int), (1 : Int)) =
      (occFlipped n k m, 0 + (occRun1 k ++ occRun2 k m).length) :=
    makeMoveDirStep_eq true Player.black 0 0 n (occPlaced n k m, 0) ((0 : Int), (1 : Int))
      (occRun1 k ++ occRun2 k m) (occ_scanFlips n k m hk hm hn)
  have s6 : makeMoveDirStep true Player.black 0 0 n
      (occFlipped n k m, 0 + (occRun1 k ++ occRun2 k m).length) ((1 : Int), (-1 : Int)) =
      (occFlipped n k m, 0 + (occRun1 k ++ occRun2 k m).length) :=
    makeMoveDirStep_self true Player.black 0 0 n
      (occFlipped n k m, 0 + (occRun1 k ++ occRun2 k m).length) ((1 : Int), (-1 : Int))
      (scanDirFlips_out (occFlipped n k m) n Player.black true 1 (-1) [] false false
        (0 + 1) (0 + -1) n ((withinBoard_eq_false_iff n (0 + 1) (0 + -1)).mpr (by omega)))
  have s7 : makeMoveDirStep true Player.black 0 0 n
      (occFlipped n k m, 0 + (occRun1 k ++ occRun2 k m).length) ((1 : Int), (0 : Int)) =
      (occFlipped n k m, 0 + (occRun1 k ++ occRun2 k m).length) :=
    makeMoveDirStep_self true Player.black 0 0 n
      (occFlipped n k m, 0 + (occRun1 k ++ occRun2 k m).length) ((1 : Int), (0 : Int))
      (scanDirFlips_step_empty (occFlipped n k m) n Player.black true 1 0 [] false false
        (0 + 1) (0 + 0) n
        ((withinBoard_iff n (0 + 1) (0 + 0)).mpr ⟨by omega, by omega, by omega, by omega⟩)
        (show cellAt (occFlipped n k m) (0 + 1) (0 + 0) = Cell.empty by
          show cellAt (occFlipped n k m) 1 0 = Cell.empty
          rw [cellAt_occFlipped_row n k m 1 0 (by omega)]
          rw [cellAt_occBoard n k m 1 0 (by omega) (by omega) (by omega) (by omega),
            if_neg (by omega)]))
  have s8 : makeMoveDirStep true Player.black 0 0 n
      (occFlipped n k m, 0 + (occRun1 k ++ occRun2 k m).length) ((1 : Int), (1 : Int)) =
      (occFlipped n k m, 0 + (occRun1 k ++ occRun2 k m).length) :=
    makeMoveDirStep_self true Player.black 0 0 n
      (occFlipped n k m, 0 + (occRun1 k ++ occRun2 k m).length) ((1 : Int), (1 : Int))
      (scanDirFlips_step_empty (occFlipped n k m) n Player.black true 1 1 [] false false
        (0 + 1) (0 + 1) n
        ((withinBoard_iff n (0 + 1) (0 + 1)).mpr ⟨by omega, by omega, by omega, by omega⟩)
        (show cellAt (occFlipped n k m) (0 + 1) (0 + 1) = Cell.empty by
          show cellAt (occFlipped n k m) 1 1 = Cell.empty
          rw [cellAt_occFlipped_row n k m 1 1 (by omega)]
          rw [cellAt_occBoard n k m 1 1 (by omega) (by omega) (by omega) (by omega),
            if_neg (by omega)]))
  simp only [makeMove]
  rw [occ_move_cond n k m (by omega), if_pos rfl, length_occBoard]
  show (List.foldl (makeMoveDirStep true Player.black 0 0 n) (occPlaced n k m, 0)
    directions).1 = _
  rw [show directions =
    [((-1 : Int), (-1 : Int)), (-1, 0), (-1, 1), (0, -1), (0, 1), (1, -1), (1, 0), (1, 1)]
    from rfl]
  rw [List.foldl_cons, s1, List.foldl_cons, s2, List.foldl_cons, s3, List.foldl_cons, s4,
    List.foldl_cons, s5, List.foldl_cons, s6, List.foldl_cons, s7, List.foldl_cons, s8,
    List.foldl_nil]

/-- C6. On a stage with ignoreOcclusion, for the whole parametric family of
boards in which a Blocked cell at column k+1 of row 0 separates the mover's
own disc (at column m+1) from the opponent run reachable from the placement
cell (0,0): the placement is judged legal, applying it flips the opponent
discs of both runs - the cells beyond the Blocked cell included - while the
Blocked cell itself stays Blocked; with ignoreOcclusion off the Blocked
cell terminates the scan and the same placement is illegal. -/
theorem ignoreOcclusion_scenario_spec (n k m j : Nat)
    (hk : 1 ≤ k) (hm : k + 2 ≤ m) (hn : m + 2 ≤ n)
    (hj : (1 ≤ j ∧ j ≤ k) ∨ (k + 2 ≤ j ∧ j ≤ m)) :
    isValidMove (occBoard n k m) true Player.black 0 0 = true ∧
    cellAt (makeMove (occBoard n k m) true Player.black 0 0).1 0 (j : Int) = Cell.black ∧
    cellAt (makeMove (occBoard n k m) true Player.black 0 0).1 0 ((k : Int) + 1) =
      Cell.blocked ∧
    isValidMove (occBoard n k m) false Player.black 0 0 = false := by
  refine ⟨occ_isValidMove n k m true hk hm hn, ?_, ?_, occ_isValidMove n k m false hk hm hn⟩
  · rw [occ_makeMove n k m hk hm hn]
    unfold occFlipped
    have hmem : ((0 : Int), (j : Int)) ∈ occRun1 k ++ occRun2 k m := by
      rcases hj with ⟨h1, h2⟩ | ⟨h1, h2⟩
      · refine List.mem_append.mpr (Or.inl ?_)
        rw [occRun1, List.mem_map]
        refine ⟨j - 1, by rw [List.mem_range]; omega, ?_⟩
        exact Prod.ext rfl (by omega)
      · refine List.mem_append.mpr (Or.inr ?_)
        rw [occRun2, List.mem_map]
        refine ⟨j - k - 2, by rw [List.mem_range]; omega, ?_⟩
        exact Prod.ext rfl (by omega)
    have hdisc : Player.black.disc = Cell.black := rfl
    rw [← hdisc]
    apply cellAt_flipAll_of_mem Player.black _ _ _ _ hmem
    · rw [(boardDims_occPlaced n k m).1]
      omega
    · rw [(boardDims_occPlaced n k m).2 (0 : Int).toNat (by omega)]
      omega
  · rw [occ_makeMove n k m hk hm hn]
    unfold occFlipped
    rw [cellAt_flipAll_ne]
    · rw [cellAt_occPlaced n k m _ (by omega)]
      rw [cellAt_occBoard n k m 0 _ (by omega) (by omega) (by omega) (by omega), if_pos rfl]
      rw [show ((k : Int) + 1).toNat = k + 1 by omega]
      exact occRowCell_blockedCell k m
    · intro p hp
      right
      have h2 := occRuns_snd k m p hp
      omega

/-- C6 witness: the scenario theorem at the concrete 5x5 board with k = 1,
m = 3: cell (0,3), beyond the Blocked cell (0,2), flips to Black; the
Blocked cell stays Blocked; the move is legal with ignoreOcclusion and
illegal without it. -/
theorem ignoreOcclusion_scenario_spec_witness :
    isValidMove (occBoard 5 1 3) true Player.black 0 0 = true ∧
    cellAt (makeMove (occBoard 5 1 3) true Player.black 0 0).1 0 3 = Cell.black ∧
    cellAt (makeMove (occBoard 5 1 3) true Player.black 0 0).1 0 2 = Cell.blocked ∧
    isValidMove (occBoard 5 1 3) false Player.black 0 0 = false := by
  have h := ignoreOcclusion_scenario_spec 5 1 3 3 (by omega) (by omega) (by omega)
    (Or.inr ⟨by omega, by omega⟩)
  exact ⟨h.1, h.2.1, h.2.2.1, h.2.2.2⟩

end OthelloArena
